import Mathlib

set_option maxRecDepth 100000

/-!
Shallow embedding of the Sudoku core of this repository:

* `src/web/lib/sudoku/strategy-solver.ts` — the strategy-based human solver
  (`solveWithStrategies`, `validateDifficulty` and their helpers);
* the hint oracle `useHint` from the game store.

Grids are lists of rows, a cell is `Option Nat` (`none` is the empty cell).
JavaScript `Set<number>` candidate sets are embedded as duplicate-free
ascending `List Nat` (they are built from ascending candidate lists and only
ever shrink by deletion).  The solver's unbounded `while` loop is embedded
with explicit fuel; a separate theorem shows the chosen fuel always suffices.

The repository snapshot does not include `src/web/lib/sudoku/validator.ts`;
its functions (`getCandidates`, `isValidMove`, `getBoxDimensions`) are
modelled from the specification, as marked on each definition.
-/

/-- Difficulty levels, in the order of `DIFFICULTY_ORDER`. -/
inductive Difficulty where
  | beginner
  | easy
  | medium
  | hard
  | expert
deriving DecidableEq, Repr

/-- The six strategy tags of the strategy solver. -/
inductive Strategy where
  | naked_single
  | hidden_single
  | naked_pair
  | pointing_pair
  | box_line_reduction
  | guessing
deriving DecidableEq, Repr

/-- A cell of a Sudoku grid: `none` is empty (JS `null`). -/
abbrev Cell := Option Nat

/-- A grid is a list of rows. -/
abbrev Grid := List (List Cell)

/-- Grid size: the number of rows (`grid.length` in the source). -/
def gsize (g : Grid) : Nat := g.length

/-- Read a cell; out-of-range coordinates read as empty, matching the
spec's rule that out-of-range coordinates yield an empty result. -/
def cellAt (g : Grid) (r c : Nat) : Cell := (g.getD r []).getD c none

/-- Modelled from the spec: `boxDimensions(N)` from the fixed table
{4:(2,2), 6:(2,3), 9:(3,3)} (§4.2); `validator.ts` is absent from the
snapshot.  The first component is the box height (rows), the second the
box width (cols), with the 9×9 shape as the default, matching the inline
box computations in the game store. -/
def getBoxDimensions (n : Nat) : Nat × Nat :=
  if n = 4 then (2, 2) else if n = 6 then (2, 3) else (3, 3)

/-- Modelled from the spec: `isLegalPlacement(grid,row,col,value)` (§4.2) —
the value may be placed iff it does not duplicate a non-empty value in the
cell's row, column or box; `validator.ts` is absent from the snapshot. -/
def isValidMove (g : Grid) (r c v : Nat) : Bool :=
  let n := gsize g
  let bd := getBoxDimensions n
  let br := r / bd.1 * bd.1
  let bc := c / bd.2 * bd.2
  ((List.range n).all fun c2 => c2 == c || cellAt g r c2 != some v) &&
  ((List.range n).all fun r2 => r2 == r || cellAt g r2 c != some v) &&
  ((List.range bd.1).all fun i => (List.range bd.2).all fun j =>
    (br + i == r && bc + j == c) || cellAt g (br + i) (bc + j) != some v)

/-- Modelled from the spec: `candidates(grid,row,col)` is the ascending
sequence of legal values 1..N (§4.2); `validator.ts` is absent from the
snapshot. -/
def getCandidates (g : Grid) (r c : Nat) : List Nat :=
  (((List.range (gsize g)).map (· + 1)).filter fun v => isValidMove g r c v)

/-- The per-cell candidate cache of the strategy solver. -/
abbrev CandGrid := List (List (List Nat))

/-- Read a candidate set from the cache (`candidates[row][col]`);
out-of-range positions read as the empty set. -/
def candAt (cg : CandGrid) (r c : Nat) : List Nat := (cg.getD r []).getD c []

/-- Write one entry of a two-dimensional list (`candidates[row][col] = x`). -/
def set2d (cg : CandGrid) (r c : Nat) (l : List Nat) : CandGrid :=
  cg.set r ((cg.getD r []).set c l)

/-- Delete a value from one cached candidate set
(`candidates[row][col].delete(value)`). -/
def del2d (cg : CandGrid) (r c v : Nat) : CandGrid :=
  set2d cg r c ((candAt cg r c).erase v)

/-- `buildCandidateGrid`: candidates for empty cells, the empty set for
filled ones. -/
def buildCandidateGrid (g : Grid) : CandGrid :=
  (List.range (gsize g)).map fun r => (List.range (gsize g)).map fun c =>
    if cellAt g r c = none then getCandidates g r c else []

/-- `isComplete`: every cell of every row is non-empty. -/
def isComplete (g : Grid) : Bool := g.all fun row => row.all fun cell => cell != none

/-- `setsEqual`: equal size and mutual membership (sets as lists). -/
def setsEqual (a b : List Nat) : Bool := a.length == b.length && a.all (b.contains ·)

/-- `DIFFICULTY_ORDER.indexOf`. -/
def getDifficultyIndex : Difficulty → Nat
  | .beginner => 0
  | .easy => 1
  | .medium => 2
  | .hard => 3
  | .expert => 4

/-- `maxDifficulty` from the source: keep `a` when its index is ≥. -/
def maxDifficulty (a b : Difficulty) : Difficulty :=
  if getDifficultyIndex b ≤ getDifficultyIndex a then a else b

/-- `STRATEGY_DIFFICULTY`, the fixed technique→difficulty table. -/
def STRATEGY_DIFFICULTY : Strategy → Difficulty
  | .naked_single => .beginner
  | .hidden_single => .easy
  | .naked_pair => .medium
  | .pointing_pair => .hard
  | .box_line_reduction => .hard
  | .guessing => .expert

/-- `Set.add` on the strategies-used set: append if not already present. -/
def addStrategy (l : List Strategy) (s : Strategy) : List Strategy :=
  if s ∈ l then l else l ++ [s]

/-- The start offsets of the boxes covering `0..n-1` with the given step
(`for (b = 0; b < n; b += step)`). -/
def boxStarts (n step : Nat) : List Nat :=
  (List.range ((n + step - 1) / step)).map (· * step)

/-- `findNakedSingle`: first empty cell, in row-major order, whose cached
candidate set has exactly one element. -/
def findNakedSingle (g : Grid) (cg : CandGrid) : Option (Nat × Nat × Nat) :=
  let n := gsize g
  (List.range n).findSome? fun r => (List.range n).findSome? fun c =>
    if cellAt g r c = none ∧ (candAt cg r c).length = 1 then
      some (r, c, (candAt cg r c).getD 0 0)
    else none

/-- `findHiddenSingle`: scan rows, then columns, then boxes, for a value
whose cached candidate positions within the unit are a singleton. -/
def findHiddenSingle (g : Grid) (cg : CandGrid) : Option (Nat × Nat × Nat) :=
  let n := gsize g
  let bd := getBoxDimensions n
  let rows := (List.range n).findSome? fun r => (List.range n).findSome? fun k =>
    let v := k + 1
    let ps := (List.range n).filter fun c => (candAt cg r c).contains v
    if ps.length = 1 then some (r, ps.getD 0 0, v) else none
  let cols := (List.range n).findSome? fun c => (List.range n).findSome? fun k =>
    let v := k + 1
    let ps := (List.range n).filter fun r => (candAt cg r c).contains v
    if ps.length = 1 then some (ps.getD 0 0, c, v) else none
  let boxes := (boxStarts n bd.1).findSome? fun br => (boxStarts n bd.2).findSome? fun bc =>
    (List.range n).findSome? fun k =>
      let v := k + 1
      let ps := ((List.range bd.1).flatMap fun i => (List.range bd.2).map fun j =>
        (br + i, bc + j)).filter fun p => (candAt cg p.1 p.2).contains v
      if ps.length = 1 then some ((ps.getD 0 (0, 0)).1, (ps.getD 0 (0, 0)).2, v) else none
  (rows <|> cols) <|> boxes

/-- All ordered pairs `(l[i], l[j])` with `i < j`, in the double-loop order
of the source. -/
def ordPairs : List α → List (α × α)
  | [] => []
  | x :: xs => (xs.map fun y => (x, y)) ++ ordPairs xs

/-- One candidate elimination: delete the value if present and count it
(the `if (has) { delete; eliminations++ }` idiom). -/
def elimCell (s : CandGrid × Nat) (t : Nat × Nat × Nat) : CandGrid × Nat :=
  if (candAt s.1 t.1 t.2.1).contains t.2.2 then
    (del2d s.1 t.1 t.2.1 t.2.2, s.2 + 1)
  else s

/-- `findNakedPairInUnit`: for each pair of two-candidate cells with equal
sets, eliminate the pair values from the rest of the unit. -/
def findNakedPairInUnit (s : CandGrid × Nat) (cells : List (Nat × Nat)) : CandGrid × Nat :=
  let pairCells := cells.filter fun p => (candAt s.1 p.1 p.2).length == 2
  (ordPairs pairCells).foldl (fun s2 pq =>
    let s1 := candAt s2.1 pq.1.1 pq.1.2
    let t1 := candAt s2.1 pq.2.1 pq.2.2
    if s1.length == 2 && setsEqual s1 t1 then
      ((cells.filter fun p => !(p == pq.1) && !(p == pq.2)).flatMap fun p =>
        s1.map fun v => (p.1, p.2, v)).foldl elimCell s2
    else s2) s

/-- The row units, column units and box units, in the scan order of
`findNakedPairEliminations`. -/
def pairUnits (n : Nat) : List (List (Nat × Nat)) :=
  let bd := getBoxDimensions n
  ((List.range n).map fun r => (List.range n).map fun c => (r, c)) ++
  ((List.range n).map fun c => (List.range n).map fun r => (r, c)) ++
  ((boxStarts n bd.1).flatMap fun br => (boxStarts n bd.2).map fun bc =>
    (List.range bd.1).flatMap fun i => (List.range bd.2).map fun j => (br + i, bc + j))

/-- `findNakedPairEliminations`: run the naked-pair elimination over every
row, column and box; returns the updated cache and the elimination count. -/
def findNakedPairEliminations (cg : CandGrid) (n : Nat) : CandGrid × Nat :=
  (pairUnits n).foldl findNakedPairInUnit (cg, 0)

/-- `findPointingPairEliminations`: for each box and value whose box
positions fit in one row (resp. column) of the box, eliminate the value
from the rest of that row (resp. column) outside the box. -/
def findPointingPairEliminations (cg : CandGrid) (n : Nat) : CandGrid × Nat :=
  let bd := getBoxDimensions n
  ((boxStarts n bd.1).flatMap fun br => (boxStarts n bd.2).flatMap fun bc =>
    (List.range n).map fun k => (br, bc, k + 1)).foldl (fun s t =>
      let br := t.1; let bc := t.2.1; let v := t.2.2
      let ps := ((List.range bd.1).flatMap fun i => (List.range bd.2).map fun j =>
        (br + i, bc + j)).filter fun p => (candAt s.1 p.1 p.2).contains v
      if ps.length < 2 ∨ bd.2 < ps.length then s
      else
        let s3 := if ps.all fun p => p.1 == (ps.getD 0 (0, 0)).1 then
            (((List.range n).filter fun c => c < bc ∨ bc + bd.2 ≤ c).map fun c =>
              ((ps.getD 0 (0, 0)).1, c, v)).foldl elimCell s
          else s
        if ps.all fun p => p.2 == (ps.getD 0 (0, 0)).2 then
          (((List.range n).filter fun r => r < br ∨ br + bd.1 ≤ r).map fun r =>
            (r, (ps.getD 0 (0, 0)).2, v)).foldl elimCell s3
        else s3) (cg, 0)

/-- `findBoxLineEliminations`: for each row (then column) and value whose
positions fall inside one box, eliminate the value from the rest of that
box outside the row (resp. column). -/
def findBoxLineEliminations (cg : CandGrid) (n : Nat) : CandGrid × Nat :=
  let bd := getBoxDimensions n
  let afterRows := ((List.range n).flatMap fun r => (List.range n).map fun k =>
    (r, k + 1)).foldl (fun s t =>
      let r := t.1; let v := t.2
      let cols := (List.range n).filter fun c => (candAt s.1 r c).contains v
      if cols.length < 2 ∨ bd.2 < cols.length then s
      else
        let bc := cols.getD 0 0 / bd.2 * bd.2
        if cols.all fun c => bc ≤ c && c < bc + bd.2 then
          let br := r / bd.1 * bd.1
          ((((List.range bd.1).map (br + ·)).filter fun r2 => r2 != r).flatMap fun r2 =>
            ((List.range bd.2).map (bc + ·)).map fun c2 => (r2, c2, v)).foldl elimCell s
        else s) (cg, 0)
  ((List.range n).flatMap fun c => (List.range n).map fun k =>
    (c, k + 1)).foldl (fun s t =>
      let c := t.1; let v := t.2
      let rows := (List.range n).filter fun r => (candAt s.1 r c).contains v
      if rows.length < 2 ∨ bd.1 < rows.length then s
      else
        let br := rows.getD 0 0 / bd.1 * bd.1
        if rows.all fun r => br ≤ r && r < br + bd.1 then
          let bc := c / bd.2 * bd.2
          (((List.range bd.1).map (br + ·)).flatMap fun r2 =>
            (((List.range bd.2).map (bc + ·)).filter fun c2 => c2 != c).map fun c2 =>
              (r2, c2, v)).foldl elimCell s
        else s) afterRows

/-- `applyMove`: place the value, clear the cell's cached candidates and
delete the value from the caches of all row, column and box peers. -/
def applyMove (g : Grid) (cg : CandGrid) (r c v : Nat) : Grid × CandGrid :=
  let n := gsize g
  let bd := getBoxDimensions n
  let br := r / bd.1 * bd.1
  let bc := c / bd.2 * bd.2
  let g2 := g.set r ((g.getD r []).set c (some v))
  let cg2 := set2d cg r c []
  let cg3 := (List.range n).foldl (fun acc c2 => del2d acc r c2 v) cg2
  let cg4 := (List.range n).foldl (fun acc r2 => del2d acc r2 c v) cg3
  let cg5 := ((List.range bd.1).flatMap fun i => (List.range bd.2).map fun j =>
    (br + i, bc + j)).foldl (fun acc p => del2d acc p.1 p.2 v) cg4
  (g2, cg5)

/-- The state carried across iterations of the solver's main loop. -/
structure SolveState where
  grid : Grid
  cands : CandGrid
  used : List Strategy
  diff : Difficulty
deriving DecidableEq, Repr

/-- One iteration of the solver's `while` loop: try the five techniques in
priority order, returning the updated state on the first that makes
progress, or `none` when nothing advances. -/
def stepSolve (st : SolveState) : Option SolveState :=
  let n := gsize st.grid
  match findNakedSingle st.grid st.cands with
  | some (r, c, v) =>
    let gc := applyMove st.grid st.cands r c v
    some ⟨gc.1, gc.2, addStrategy st.used .naked_single, maxDifficulty st.diff .beginner⟩
  | none =>
  match findHiddenSingle st.grid st.cands with
  | some (r, c, v) =>
    let gc := applyMove st.grid st.cands r c v
    some ⟨gc.1, gc.2, addStrategy st.used .hidden_single, maxDifficulty st.diff .easy⟩
  | none =>
  let p1 := findNakedPairEliminations st.cands n
  if 0 < p1.2 then
    some ⟨st.grid, p1.1, addStrategy st.used .naked_pair, maxDifficulty st.diff .medium⟩
  else
  let p2 := findPointingPairEliminations p1.1 n
  if 0 < p2.2 then
    some ⟨st.grid, p2.1, addStrategy st.used .pointing_pair, maxDifficulty st.diff .hard⟩
  else
  let p3 := findBoxLineEliminations p2.1 n
  if 0 < p3.2 then
    some ⟨st.grid, p3.1, addStrategy st.used .box_line_reduction, maxDifficulty st.diff .hard⟩
  else none

/-- The solver's `while (madeProgress)` loop, with explicit fuel; `steps`
counts iterations including the final unproductive one.  `none` means the
fuel ran out (a separate theorem shows the fuel chosen by
`solveWithStrategies` never does). -/
def solveLoop : Nat → SolveState → Nat → Option (SolveState × Nat)
  | 0, _, _ => none
  | fuel + 1, st, steps =>
    match stepSolve st with
    | none => some (st, steps + 1)
    | some st2 => solveLoop fuel st2 (steps + 1)

/-- The result record of `solveWithStrategies`. -/
structure SolveResult where
  solved : Bool
  grid : Grid
  strategiesUsed : List Strategy
  maxDifficulty : Difficulty
  steps : Nat
deriving DecidableEq, Repr

/-- Total number of cached candidate entries; the loop measure. -/
def totalCands (cg : CandGrid) : Nat := (cg.map fun row => (row.map List.length).sum).sum

/-- `solveWithStrategies`: run the loop from the freshly built candidate
cache, then classify the outcome; an unfinished grid is tagged `guessing`
at difficulty `expert`. -/
def solveWithStrategies (g : Grid) : Option SolveResult :=
  let cg := buildCandidateGrid g
  (solveLoop (totalCands cg + 1) ⟨g, cg, [], .beginner⟩ 0).map fun p =>
    if isComplete p.1.grid then
      ⟨true, p.1.grid, p.1.used, p.1.diff, p.2⟩
    else
      ⟨false, p.1.grid, addStrategy p.1.used .guessing, .expert, p.2⟩

/-- `getMaxDifficultyForGridSize`: the per-size achievable ceiling. -/
def getMaxDifficultyForGridSize (n : Nat) : Difficulty :=
  if n = 4 then .easy else if n = 6 then .medium else .expert

/-- The result record of `validateDifficulty`. -/
structure ValidateResult where
  valid : Bool
  actualDifficulty : Difficulty
  strategiesUsed : List Strategy
deriving DecidableEq, Repr

/-- `validateDifficulty`: accept when the actual difficulty is within one
level of the expected difficulty capped to the size's ceiling, or when the
puzzle is harder than expected and hard/expert was requested. -/
def validateDifficulty (g : Grid) (expected : Difficulty) : Option ValidateResult :=
  (solveWithStrategies g).map fun res =>
    let actualIndex := getDifficultyIndex res.maxDifficulty
    let expectedIndex := getDifficultyIndex expected
    let maxIndex := getDifficultyIndex (getMaxDifficultyForGridSize (gsize g))
    let adjusted := min expectedIndex maxIndex
    let withinRange := ((actualIndex : Int) - (adjusted : Int)).natAbs ≤ 1
    let harder := adjusted < actualIndex ∧ 3 ≤ expectedIndex
    ⟨decide (withinRange ∨ harder), res.maxDifficulty, res.strategiesUsed⟩

/-- Hint strategy tags produced by `useHint`. -/
inductive HintTag where
  | single_candidate
  | hidden_single
  | naked_pair
  | advanced
deriving DecidableEq, Repr

/-- The observable outcome of `useHint`: the target cell+value (if any),
the technique tag, and the confidence (1 for a found move, 0 for none). -/
structure HintOutcome where
  target : Option (Nat × Nat × Nat)
  tag : HintTag
  confidence : Nat
deriving DecidableEq, Repr

/-- Step 1 of `useHint`: first empty cell, row-major, with exactly one
candidate. -/
def hintNakedSingle (g : Grid) : Option (Nat × Nat × Nat) :=
  let n := gsize g
  (List.range n).findSome? fun r => (List.range n).findSome? fun c =>
    if cellAt g r c = none then
      match getCandidates g r c with
      | [v] => some (r, c, v)
      | _ => none
    else none

/-- The `uniqueInRow` check of `useHint`: no other empty cell of the row
admits the value. -/
def uniqueInRow (g : Grid) (r c v : Nat) : Bool :=
  (List.range (gsize g)).all fun c2 =>
    c2 == c || cellAt g r c2 != none || !(getCandidates g r c2).contains v

/-- The `uniqueInCol` check of `useHint`. -/
def uniqueInCol (g : Grid) (r c v : Nat) : Bool :=
  (List.range (gsize g)).all fun r2 =>
    r2 == r || cellAt g r2 c != none || !(getCandidates g r2 c).contains v

/-- The `uniqueInBox` check of `useHint`. -/
def uniqueInBox (g : Grid) (r c v : Nat) : Bool :=
  let bd := getBoxDimensions (gsize g)
  let br := r / bd.1 * bd.1
  let bc := c / bd.2 * bd.2
  (List.range bd.1).all fun i => (List.range bd.2).all fun j =>
    (br + i == r && bc + j == c) || cellAt g (br + i) (bc + j) != none ||
      !(getCandidates g (br + i) (bc + j)).contains v

/-- A candidate value of a cell qualifies as a hidden single for `useHint`
when it is unique in the cell's row, column or box. -/
def hiddenQualifies (g : Grid) (r c v : Nat) : Bool :=
  uniqueInRow g r c v || uniqueInCol g r c v || uniqueInBox g r c v

/-- Step 2 of `useHint`: scan empty cells row-major; in each, take the
first candidate (ascending) unique in the cell's row, column or box. -/
def hintHiddenSingle (g : Grid) : Option (Nat × Nat × Nat) :=
  let n := gsize g
  (List.range n).findSome? fun r => (List.range n).findSome? fun c =>
    if cellAt g r c = none then
      ((getCandidates g r c).find? fun v => hiddenQualifies g r c v).map fun v => (r, c, v)
    else none

/-- `findPairLeadingToSingle` from `useHint`: a naked pair in the unit
whose two values, removed from another empty cell of the unit, leave
exactly one candidate there. -/
def pairLeadingToSingle (g : Grid) (unitCells : List (Nat × Nat)) : Option (Nat × Nat × Nat) :=
  let es := (unitCells.filter fun p => cellAt g p.1 p.2 == none).map fun p =>
    (p, getCandidates g p.1 p.2)
  (ordPairs (es.filter fun e => e.2.length == 2)).findSome? fun pq =>
    if pq.1.2.getD 0 0 == pq.2.2.getD 0 0 && pq.1.2.getD 1 0 == pq.2.2.getD 1 0 then
      let pv := [pq.1.2.getD 0 0, pq.2.2.getD 1 0]
      es.findSome? fun o =>
        if o.1 == pq.1.1 || o.1 == pq.2.1 then none
        else
          match o.2.filter fun x => !pv.contains x with
          | [w] => some (o.1.1, o.1.2, w)
          | _ => none
    else none

/-- The cells of the box with box indices `(bi, bj)`, in the scan order of
step 3 of `useHint`. -/
def hintBoxCells (n bi bj : Nat) : List (Nat × Nat) :=
  let bd := getBoxDimensions n
  (List.range bd.1).flatMap fun i => (List.range bd.2).map fun j =>
    (bi * bd.1 + i, bj * bd.2 + j)

/-- Step 3 of `useHint`: look for a naked pair leading to a single, over
rows, then columns, then boxes. -/
def hintNakedPair (g : Grid) : Option (Nat × Nat × Nat) :=
  let n := gsize g
  let bd := getBoxDimensions n
  let rows := (List.range n).findSome? fun r =>
    pairLeadingToSingle g ((List.range n).map fun c => (r, c))
  let cols := (List.range n).findSome? fun c =>
    pairLeadingToSingle g ((List.range n).map fun r => (r, c))
  let boxes := (List.range (n / bd.1)).findSome? fun bi =>
    (List.range (n / bd.2)).findSome? fun bj =>
      pairLeadingToSingle g (hintBoxCells n bi bj)
  (rows <|> cols) <|> boxes

/-- The hint oracle `useHint`, reduced to its observable outcome: naked
single, else hidden single, else naked pair leading to a single, else no
target with confidence 0. -/
def useHint (g : Grid) : HintOutcome :=
  match hintNakedSingle g with
  | some t => ⟨some t, .single_candidate, 1⟩
  | none =>
  match hintHiddenSingle g with
  | some t => ⟨some t, .hidden_single, 1⟩
  | none =>
  match hintNakedPair g with
  | some t => ⟨some t, .naked_pair, 1⟩
  | none => ⟨none, .advanced, 0⟩

/-- The claim's reading of the spec sentence "First hidden single found
(row scan, then column scan, then box scan)": scan whole rows, then whole
columns, then whole boxes, for a value confined to one empty cell of the
unit, computing candidates on demand.  Kept separate from the source
functions so it can be compared with what `useHint` actually does. -/
def specHiddenSingleUnitScan (g : Grid) : Option (Nat × Nat × Nat) :=
  let n := gsize g
  let bd := getBoxDimensions n
  let has := fun r c v => cellAt g r c = none ∧ v ∈ getCandidates g r c
  let rows := (List.range n).findSome? fun r => (List.range n).findSome? fun k =>
    let v := k + 1
    let ps := (List.range n).filter fun c => decide (has r c v)
    if ps.length = 1 then some (r, ps.getD 0 0, v) else none
  let cols := (List.range n).findSome? fun c => (List.range n).findSome? fun k =>
    let v := k + 1
    let ps := (List.range n).filter fun r => decide (has r c v)
    if ps.length = 1 then some (ps.getD 0 0, c, v) else none
  let boxes := (boxStarts n bd.1).findSome? fun br => (boxStarts n bd.2).findSome? fun bc =>
    (List.range n).findSome? fun k =>
      let v := k + 1
      let ps := ((List.range bd.1).flatMap fun i => (List.range bd.2).map fun j =>
        (br + i, bc + j)).filter fun p => decide (has p.1 p.2 v)
      if ps.length = 1 then some ((ps.getD 0 (0, 0)).1, (ps.getD 0 (0, 0)).2, v) else none
  (rows <|> cols) <|> boxes

/-- The solver state in the reference model: a store of grid objects, the
index `wr` of the working grid (the clone), and the local candidate cache,
strategies and difficulty.  Mutations of the working grid go through
`store.set wr`; nothing else in the store is ever written. -/
structure RefState where
  store : List Grid
  wr : Nat
  cands : CandGrid
  used : List Strategy
  diff : Difficulty
deriving DecidableEq, Repr

/-- One loop iteration of the solver in the reference model: identical to
`stepSolve`, but reading and writing the working grid through the store. -/
def stepSolveRef (rs : RefState) : Option RefState :=
  let g := rs.store.getD rs.wr []
  let n := gsize g
  match findNakedSingle g rs.cands with
  | some (r, c, v) =>
    let gc := applyMove g rs.cands r c v
    some ⟨rs.store.set rs.wr gc.1, rs.wr, gc.2, addStrategy rs.used .naked_single,
      maxDifficulty rs.diff .beginner⟩
  | none =>
  match findHiddenSingle g rs.cands with
  | some (r, c, v) =>
    let gc := applyMove g rs.cands r c v
    some ⟨rs.store.set rs.wr gc.1, rs.wr, gc.2, addStrategy rs.used .hidden_single,
      maxDifficulty rs.diff .easy⟩
  | none =>
  let p1 := findNakedPairEliminations rs.cands n
  if 0 < p1.2 then
    some ⟨rs.store, rs.wr, p1.1, addStrategy rs.used .naked_pair, maxDifficulty rs.diff .medium⟩
  else
  let p2 := findPointingPairEliminations p1.1 n
  if 0 < p2.2 then
    some ⟨rs.store, rs.wr, p2.1, addStrategy rs.used .pointing_pair, maxDifficulty rs.diff .hard⟩
  else
  let p3 := findBoxLineEliminations p2.1 n
  if 0 < p3.2 then
    some ⟨rs.store, rs.wr, p3.1, addStrategy rs.used .box_line_reduction,
      maxDifficulty rs.diff .hard⟩
  else none

/-- The solver loop in the reference model. -/
def solveLoopRef : Nat → RefState → Nat → Option (RefState × Nat)
  | 0, _, _ => none
  | fuel + 1, rs, steps =>
    match stepSolveRef rs with
    | none => some (rs, steps + 1)
    | some rs2 => solveLoopRef fuel rs2 (steps + 1)

/-- `solveWithStrategies` in the reference model: the input grid lives at
index `ref` of the store; `cloneGrid` allocates the working copy at the
fresh index `store.length`.  Returns the final store, the index of the
working grid, and the result. -/
def solveWithStrategiesRef (store : List Grid) (ref : Nat) :
    List Grid × Nat × Option SolveResult :=
  let g := store.getD ref []
  let cg := buildCandidateGrid g
  let wr := store.length
  match solveLoopRef (totalCands cg + 1) ⟨store ++ [g], wr, cg, [], .beginner⟩ 0 with
  | none => (store ++ [g], wr, none)
  | some (rs, steps) =>
    let fg := rs.store.getD rs.wr []
    (rs.store, rs.wr,
      some (if isComplete fg then ⟨true, fg, rs.used, rs.diff, steps⟩
            else ⟨false, fg, addStrategy rs.used .guessing, .expert, steps⟩))

/-- Recompute the running maximum difficulty from a strategies-used set via
the fixed `STRATEGY_DIFFICULTY` table (`beginner` when the set is empty). -/
def runningMax (l : List Strategy) : Difficulty :=
  l.foldl (fun d s => maxDifficulty d (STRATEGY_DIFFICULTY s)) .beginner

/-- Invariant relating two elimination states: the counter never
decreases, the cache is untouched exactly when the counter is, and counter
increments are matched one-for-one by removed candidate entries. -/
def StepOK (s t : CandGrid × Nat) : Prop :=
  s.2 ≤ t.2 ∧ (t.2 = s.2 → t.1 = s.1) ∧ totalCands t.1 + t.2 = totalCands s.1 + s.2

/-- A cell admits a value: it is empty and the value is among its
candidates. -/
def cellHasCandidate (g : Grid) (r c v : Nat) : Prop :=
  cellAt g r c = none ∧ v ∈ getCandidates g r c

instance (g : Grid) (r c v : Nat) : Decidable (cellHasCandidate g r c v) :=
  inferInstanceAs (Decidable (cellAt g r c = none ∧ v ∈ getCandidates g r c))

/-- The row, column and box units of an `n`-sized grid, in the scan order
used by the hint oracle. -/
def allUnits (n : Nat) : List (List (Nat × Nat)) :=
  let bd := getBoxDimensions n
  ((List.range n).map fun r => (List.range n).map fun c => (r, c)) ++
  ((List.range n).map fun c => (List.range n).map fun r => (r, c)) ++
  ((List.range (n / bd.1)).flatMap fun bi => (List.range (n / bd.2)).map fun bj =>
    hintBoxCells n bi bj)

/-- No empty cell has exactly one candidate. -/
def noNakedSingleCell (g : Grid) : Prop :=
  ∀ r, r < gsize g → ∀ c, c < gsize g → cellAt g r c = none →
    (getCandidates g r c).length ≠ 1

instance (g : Grid) : Decidable (noNakedSingleCell g) := by
  unfold noNakedSingleCell
  infer_instance

/-- No value is confined to a single admitting cell within any row, column
or box. -/
def noHiddenSingleAnywhere (g : Grid) : Prop :=
  ∀ U ∈ allUnits (gsize g), ∀ v, v ≤ gsize g →
    (U.filter fun p => decide (cellHasCandidate g p.1 p.2 v)).length ≠ 1

instance (g : Grid) : Decidable (noHiddenSingleAnywhere g) := by
  unfold noHiddenSingleAnywhere
  infer_instance

/-- No naked pair's elimination leaves some other empty cell of the same
unit with exactly one remaining candidate. -/
def noPairToSingle (g : Grid) : Prop :=
  ∀ U ∈ allUnits (gsize g), ∀ p ∈ U, ∀ q ∈ U, p ≠ q →
    cellAt g p.1 p.2 = none → cellAt g q.1 q.2 = none →
    (getCandidates g p.1 p.2).length = 2 →
    getCandidates g p.1 p.2 = getCandidates g q.1 q.2 →
    ∀ x ∈ U, x ≠ p → x ≠ q → cellAt g x.1 x.2 = none →
      ((getCandidates g x.1 x.2).filter fun w =>
        decide (w ∉ getCandidates g p.1 p.2)).length ≠ 1

instance (g : Grid) : Decidable (noPairToSingle g) := by
  unfold noPairToSingle
  infer_instance

/-- A square grid: every row has as many cells as there are rows. -/
def squareGrid (g : Grid) : Prop := ∀ row ∈ g, row.length = gsize g

instance (g : Grid) : Decidable (squareGrid g) := by
  unfold squareGrid
  infer_instance

/-- The triple `(r, c, v)` is the first hidden single met by the cell scan
of `useHint`: the cell is empty, the value is a candidate unique in the
cell's row, column or box, no smaller candidate of the same cell qualifies,
and no cell earlier in row-major order has any qualifying candidate. -/
def firstHiddenByCellScan (g : Grid) (r c v : Nat) : Prop :=
  r < gsize g ∧ c < gsize g ∧ cellAt g r c = none ∧ v ∈ getCandidates g r c ∧
  hiddenQualifies g r c v = true ∧
  (∀ w ∈ getCandidates g r c, w < v → hiddenQualifies g r c w = false) ∧
  (∀ r2, r2 < gsize g → ∀ c2, c2 < gsize g → gsize g * r2 + c2 < gsize g * r + c →
    cellAt g r2 c2 = none →
    ∀ w ∈ getCandidates g r2 c2, hiddenQualifies g r2 c2 w = false)

/-- The 4×4 scenario grid of the spec (§8): one empty cell at (0,3). -/
def scenarioGrid : Grid :=
  [[some 1, some 2, some 3, none], [some 3, some 4, some 1, some 2],
   [some 2, some 1, some 4, some 3], [some 4, some 3, some 2, some 1]]

/-- The completed form of `scenarioGrid`. -/
def scenarioSolved : Grid :=
  [[some 1, some 2, some 3, some 4], [some 3, some 4, some 1, some 2],
   [some 2, some 1, some 4, some 3], [some 4, some 3, some 2, some 1]]

/-- A 4×4 in-progress grid with no naked single on which the hint oracle's
cell scan and the unit scan of the claim disagree: the cell scan meets the
column hidden single 2 at (1,2) before any row hidden single, while a
rows-first unit scan would return the row hidden single 4 at (1,3). -/
def hintScanGrid : Grid :=
  [[some 4, some 2, none, none], [none, none, none, none],
   [some 2, none, none, none], [none, none, some 4, none]]

/-- The empty 4×4 grid. -/
def emptyGrid4 : Grid :=
  [[none, none, none, none], [none, none, none, none],
   [none, none, none, none], [none, none, none, none]]

/-- A two-grid store used to instantiate the reference-model theorems. -/
def demoStore : List Grid := [scenarioGrid, scenarioSolved]

/-- The requested difficulty capped at the per-size achievable ceiling, as
a difficulty value. -/
def cappedDifficulty (d : Difficulty) (n : Nat) : Difficulty :=
  if getDifficultyIndex d ≤ getDifficultyIndex (getMaxDifficultyForGridSize n) then d
  else getMaxDifficultyForGridSize n

/-! ### Generic list lemmas -/

theorem foldl_fixed {f : β → α → β} {s : β} :
    ∀ {l : List α}, (∀ a ∈ l, f s a = s) → l.foldl f s = s := by
  intro l
  induction l with
  | nil => intro _; rfl
  | cons x xs ih =>
    intro h
    have hx : f s x = s := h x (List.mem_cons_self x xs)
    simp only [List.foldl_cons, hx]
    exact ih fun a ha => h a (List.mem_cons_of_mem x ha)

theorem findSome?_singleton (f : α → Option β) (a : α) : List.findSome? f [a] = f a := by
  cases h : f a <;> simp [List.findSome?_cons, h]

theorem findSome?_range_some {f : Nat → Option β} :
    ∀ {n : Nat} {b : β}, (List.range n).findSome? f = some b ↔
      ∃ k, k < n ∧ f k = some b ∧ ∀ j, j < k → f j = none := by
  intro n
  induction n with
  | zero => intro b; simp
  | succ m ih =>
    intro b
    rw [List.range_succ, List.findSome?_append]
    constructor
    · intro h
      cases hm : (List.range m).findSome? f with
      | some b2 =>
        rw [hm, Option.or_some, Option.some.injEq] at h
        subst h
        obtain ⟨k, hk, hfk, hmin⟩ := ih.mp hm
        exact ⟨k, Nat.lt_succ_of_lt hk, hfk, hmin⟩
      | none =>
        rw [hm, Option.none_or, findSome?_singleton] at h
        refine ⟨m, Nat.lt_succ_self m, h, fun j hj => ?_⟩
        exact List.findSome?_eq_none_iff.mp hm j (List.mem_range.mpr hj)
    · rintro ⟨k, hk, hfk, hmin⟩
      by_cases hkm : k < m
      · have h2 : (List.range m).findSome? f = some b := ih.mpr ⟨k, hkm, hfk, hmin⟩
        rw [h2]; rfl
      · have hkm2 : k = m := by omega
        rw [hkm2] at hfk hmin
        have h2 : (List.range m).findSome? f = none :=
          List.findSome?_eq_none_iff.mpr fun j hj => hmin j (List.mem_range.mp hj)
        rw [h2, Option.none_or]
        simp [List.findSome?_cons, hfk]

theorem find?_sorted_min {p : Nat → Bool} {l : List Nat} (hs : l.Pairwise (· < ·)) {v : Nat}
    (h : l.find? p = some v) :
    p v = true ∧ v ∈ l ∧ ∀ w ∈ l, w < v → p w = false := by
  obtain ⟨hpv, as, bs, rfl, hpre⟩ := List.find?_eq_some.mp h
  refine ⟨hpv, by simp, fun w hw hwv => ?_⟩
  rw [List.mem_append, List.mem_cons] at hw
  rcases hw with hw | hw | hw
  · simpa using hpre w hw
  · omega
  · have := (List.pairwise_append.mp hs).2.1
    rw [List.pairwise_cons] at this
    have := this.1 w hw
    omega

theorem set_getD_self (l : List α) (i : Nat) (d : α) : l.set i (l.getD i d) = l := by
  induction l generalizing i with
  | nil => rfl
  | cons x xs ih =>
    cases i with
    | zero => rfl
    | succ j => simp only [List.set_cons_succ, List.getD, List.get?_cons_succ]
                exact congrArg (x :: ·) (ih j)

theorem getD_set_self {a d : α} :
    ∀ {l : List α} {i : Nat}, i < l.length → (l.set i a).getD i d = a := by
  intro l
  induction l with
  | nil => intro i h; simp at h
  | cons x xs ih =>
    intro i h
    cases i with
    | zero => rfl
    | succ j => exact ih (by simpa using h)

theorem getD_set_ne {a d : α} :
    ∀ {l : List α} {i j : Nat}, i ≠ j → (l.set j a).getD i d = l.getD i d := by
  intro l
  induction l with
  | nil => intro i j _; rfl
  | cons x xs ih =>
    intro i j h
    cases j with
    | zero => cases i with
      | zero => omega
      | succ i2 => rfl
    | succ j2 => cases i with
      | zero => rfl
      | succ i2 => exact ih (by omega)

theorem getD_append_left {l2 : List α} {d : α} :
    ∀ {l : List α} {i : Nat}, i < l.length → (l ++ l2).getD i d = l.getD i d := by
  intro l
  induction l with
  | nil => intro i h; simp at h
  | cons x xs ih =>
    intro i h
    cases i with
    | zero => rfl
    | succ j => exact ih (by simpa using h)

theorem getD_concat_self (l : List α) (a d : α) : (l ++ [a]).getD l.length d = a := by
  induction l with
  | nil => rfl
  | cons x xs ih => exact ih

theorem map_sum_set {f : α → Nat} :
    ∀ {l : List α} {i : Nat} (a : α), i < l.length →
      ((l.set i a).map f).sum + f (l.getD i a) = (l.map f).sum + f a := by
  intro l
  induction l with
  | nil => intro i a h; simp at h
  | cons x xs ih =>
    intro i a h
    cases i with
    | zero => simp [List.getD]; omega
    | succ j =>
      have := ih a (i := j) (by simpa using h)
      simp only [List.set_cons_succ, List.map_cons, List.sum_cons, List.getD_cons_succ]
      omega

theorem getD_irrel {l : List α} {i : Nat} (h : i < l.length) (d1 d2 : α) :
    l.getD i d1 = l.getD i d2 := by
  simp [List.getD_eq_getElem?_getD, List.getElem?_eq_getElem h]

theorem getD_default {l : List α} {i : Nat} (h : l.length ≤ i) (d : α) :
    l.getD i d = d := by
  simp [List.getD_eq_getElem?_getD, List.getElem?_eq_none h]

theorem findSome?_mem {f : α → Option β} {l : List α} {b : β}
    (h : l.findSome? f = some b) : ∃ a ∈ l, f a = some b := by
  obtain ⟨l1, a, l2, rfl, hfa, _⟩ := List.findSome?_eq_some_iff.mp h
  exact ⟨a, by simp, hfa⟩

/-! ### The candidate-count measure -/

theorem candAt_ne_nil {cg : CandGrid} {r c : Nat} (h : candAt cg r c ≠ []) :
    r < cg.length ∧ c < (cg.getD r []).length := by
  constructor
  · by_contra hr
    apply h
    show (cg.getD r []).getD c [] = []
    rw [getD_default (l := cg) (by omega) []]
    rfl
  · by_contra hc
    apply h
    show (cg.getD r []).getD c [] = []
    exact getD_default (by omega) []

theorem totalCands_set2d {cg : CandGrid} {r c : Nat} (hr : r < cg.length)
    (hc : c < (cg.getD r []).length) (l : List Nat) :
    totalCands (set2d cg r c l) + (candAt cg r c).length = totalCands cg + l.length := by
  have h1 := map_sum_set (f := fun row : List (List Nat) => (row.map List.length).sum)
    (a := (cg.getD r []).set c l) hr
  rw [getD_irrel hr ((cg.getD r []).set c l) []] at h1
  have h2 := map_sum_set (f := List.length) (l := cg.getD r []) (a := l) hc
  rw [getD_irrel hc l []] at h2
  simp only at h1 h2
  unfold totalCands set2d candAt
  omega

theorem set2d_candAt_eq (cg : CandGrid) (r c : Nat) :
    set2d cg r c (candAt cg r c) = cg := by
  unfold set2d candAt
  by_cases hr : r < cg.length
  · by_cases hc : c < (cg.getD r []).length
    · rw [set_getD_self, set_getD_self]
    · rw [List.set_eq_of_length_le (l := cg.getD r []) (n := c) (by omega), set_getD_self]
  · rw [List.set_eq_of_length_le (l := cg) (n := r) (by omega)]

theorem totalCands_del2d_le (cg : CandGrid) (r c v : Nat) :
    totalCands (del2d cg r c v) ≤ totalCands cg := by
  by_cases h : candAt cg r c = []
  · unfold del2d
    rw [h, List.erase_nil, ← h, set2d_candAt_eq]
  · obtain ⟨hr, hc⟩ := candAt_ne_nil h
    have h1 := totalCands_set2d hr hc ((candAt cg r c).erase v)
    have h2 := List.length_erase_le v (candAt cg r c)
    unfold del2d
    omega

theorem totalCands_set2d_nil_lt {cg : CandGrid} {r c : Nat} (h : candAt cg r c ≠ []) :
    totalCands (set2d cg r c []) < totalCands cg := by
  obtain ⟨hr, hc⟩ := candAt_ne_nil h
  have h1 := totalCands_set2d hr hc []
  have h2 : 0 < (candAt cg r c).length := List.length_pos.mpr h
  simp only [List.length_nil] at h1
  omega

theorem foldl_total_le {f : CandGrid → α → CandGrid}
    (hf : ∀ s a, totalCands (f s a) ≤ totalCands s) :
    ∀ (l : List α) (s : CandGrid), totalCands (l.foldl f s) ≤ totalCands s := by
  intro l
  induction l with
  | nil => intro s; exact Nat.le_refl _
  | cons x xs ih =>
    intro s
    exact Nat.le_trans (ih (f s x)) (hf s x)

theorem totalCands_applyMove_lt {g : Grid} {cg : CandGrid} {r c : Nat} (v : Nat)
    (h : candAt cg r c ≠ []) :
    totalCands (applyMove g cg r c v).2 < totalCands cg := by
  unfold applyMove
  refine Nat.lt_of_le_of_lt ?_ (totalCands_set2d_nil_lt h)
  refine Nat.le_trans (foldl_total_le (fun s (p : Nat × Nat) => totalCands_del2d_le s p.1 p.2 v) _ _) ?_
  refine Nat.le_trans (foldl_total_le (fun s r2 => totalCands_del2d_le s r2 c v) _ _) ?_
  exact foldl_total_le (fun s c2 => totalCands_del2d_le s r c2 v) _ _

/-! ### The elimination-step invariant -/

theorem stepOK_refl (s : CandGrid × Nat) : StepOK s s :=
  ⟨Nat.le_refl _, fun _ => rfl, rfl⟩

theorem stepOK_trans {s t u : CandGrid × Nat} (h1 : StepOK s t) (h2 : StepOK t u) :
    StepOK s u := by
  obtain ⟨a1, b1, c1⟩ := h1
  obtain ⟨a2, b2, c2⟩ := h2
  refine ⟨Nat.le_trans a1 a2, fun he => ?_, by omega⟩
  have ht : t.2 = s.2 := by omega
  rw [b2 (by omega), b1 ht]

theorem stepOK_elimCell (s : CandGrid × Nat) (t : Nat × Nat × Nat) :
    StepOK s (elimCell s t) := by
  unfold elimCell
  split
  · next hc =>
    have hmem : t.2.2 ∈ candAt s.1 t.1 t.2.1 := by
      simpa using hc
    have hne : candAt s.1 t.1 t.2.1 ≠ [] := List.ne_nil_of_mem hmem
    obtain ⟨hr, hcol⟩ := candAt_ne_nil hne
    have h1 := totalCands_set2d hr hcol ((candAt s.1 t.1 t.2.1).erase t.2.2)
    have h2 := List.length_erase_of_mem hmem
    have h3 : 0 < (candAt s.1 t.1 t.2.1).length := List.length_pos.mpr hne
    exact ⟨Nat.le_succ _, fun he => by omega, by unfold del2d; simp only []; omega⟩
  · exact stepOK_refl s

theorem stepOK_foldl {f : (CandGrid × Nat) → α → (CandGrid × Nat)}
    (hf : ∀ s a, StepOK s (f s a)) :
    ∀ (l : List α) (s : CandGrid × Nat), StepOK s (l.foldl f s) := by
  intro l
  induction l with
  | nil => intro s; exact stepOK_refl s
  | cons x xs ih =>
    intro s
    exact stepOK_trans (hf s x) (ih (f s x))

theorem stepOK_nakedPairInUnit (s : CandGrid × Nat) (cells : List (Nat × Nat)) :
    StepOK s (findNakedPairInUnit s cells) := by
  unfold findNakedPairInUnit
  refine stepOK_foldl (fun s2 pq => ?_) _ s
  dsimp only
  split
  · exact stepOK_foldl stepOK_elimCell _ s2
  · exact stepOK_refl s2

theorem stepOK_pairElims (cg : CandGrid) (n : Nat) :
    StepOK (cg, 0) (findNakedPairEliminations cg n) := by
  unfold findNakedPairEliminations
  exact stepOK_foldl stepOK_nakedPairInUnit _ _

theorem stepOK_pointingElims (cg : CandGrid) (n : Nat) :
    StepOK (cg, 0) (findPointingPairEliminations cg n) := by
  unfold findPointingPairEliminations
  refine stepOK_foldl (fun s t => ?_) _ _
  dsimp only
  split
  · exact stepOK_refl s
  · split
    · split
      · exact stepOK_trans (stepOK_foldl stepOK_elimCell _ s) (stepOK_foldl stepOK_elimCell _ _)
      · exact stepOK_foldl stepOK_elimCell _ s
    · split
      · exact stepOK_trans (stepOK_refl s) (stepOK_foldl stepOK_elimCell _ s)
      · exact stepOK_refl s

theorem stepOK_boxLineElims (cg : CandGrid) (n : Nat) :
    StepOK (cg, 0) (findBoxLineEliminations cg n) := by
  unfold findBoxLineEliminations
  dsimp only
  refine stepOK_trans (stepOK_foldl (fun s t => ?_) _ _) (stepOK_foldl (fun s t => ?_) _ _)
  · dsimp only
    split
    · exact stepOK_refl s
    · split
      · exact stepOK_foldl stepOK_elimCell _ s
      · exact stepOK_refl s
  · dsimp only
    split
    · exact stepOK_refl s
    · split
      · exact stepOK_foldl stepOK_elimCell _ s
      · exact stepOK_refl s

theorem contains_iff_mem {l : List Nat} {v : Nat} : l.contains v = true ↔ v ∈ l := by
  simp

theorem stepOK_zero_eq {cg : CandGrid} {p : CandGrid × Nat} (h : StepOK (cg, 0) p)
    (hz : p.2 = 0) : p.1 = cg := h.2.1 hz

theorem stepOK_pos_lt {cg : CandGrid} {p : CandGrid × Nat} (h : StepOK (cg, 0) p)
    (hp : 0 < p.2) : totalCands p.1 < totalCands cg := by
  have h2 := h.2.2
  dsimp only at h2
  omega

/-! ### Facts about the technique finders -/

theorem findNakedSingle_some {g : Grid} {cg : CandGrid} {r c v : Nat}
    (h : findNakedSingle g cg = some (r, c, v)) :
    r < gsize g ∧ c < gsize g ∧ cellAt g r c = none ∧ (candAt cg r c).length = 1 ∧
      v = (candAt cg r c).getD 0 0 := by
  unfold findNakedSingle at h
  obtain ⟨a, ha, h1⟩ := findSome?_mem h
  obtain ⟨b, hb, h2⟩ := findSome?_mem h1
  rw [List.mem_range] at ha hb
  split at h2
  · next hcond =>
    simp only [Option.some.injEq, Prod.mk.injEq] at h2
    obtain ⟨rfl, rfl, rfl⟩ := h2
    exact ⟨ha, hb, hcond.1, hcond.2, rfl⟩
  · exact absurd h2 (by simp)

theorem filter_length_one_mem {p : α → Bool} {l : List α} {d : α}
    (h : (l.filter p).length = 1) :
    (l.filter p).getD 0 d ∈ l ∧ p ((l.filter p).getD 0 d) = true := by
  obtain ⟨x, hx⟩ := List.length_eq_one.mp h
  rw [hx]
  have hmem : x ∈ l.filter p := by rw [hx]; exact List.mem_singleton_self x
  rw [List.mem_filter] at hmem
  exact ⟨hmem.1, hmem.2⟩

theorem findHiddenSingle_contains {g : Grid} {cg : CandGrid} {r c v : Nat}
    (h : findHiddenSingle g cg = some (r, c, v)) :
    v ∈ candAt cg r c := by
  have orElim : ∀ {o1 o2 : Option (Nat × Nat × Nat)} {b : Nat × Nat × Nat},
      (o1 <|> o2) = some b → o1 = some b ∨ o2 = some b := by
    intro o1 o2 b hh
    cases o1 with
    | some x => left; simpa using hh
    | none => right; simpa using hh
  simp only [findHiddenSingle] at h
  rcases orElim h with h | h
  rcases orElim h with h | h
  · obtain ⟨a, _, h1⟩ := findSome?_mem h
    obtain ⟨b, _, h2⟩ := findSome?_mem h1
    split at h2
    · next hps =>
      simp only [Option.some.injEq, Prod.mk.injEq] at h2
      obtain ⟨rfl, rfl, rfl⟩ := h2
      have := (filter_length_one_mem (d := 0) hps).2
      exact contains_iff_mem.mp this
    · exact absurd h2 (by simp)
  · obtain ⟨a, _, h1⟩ := findSome?_mem h
    obtain ⟨b, _, h2⟩ := findSome?_mem h1
    split at h2
    · next hps =>
      simp only [Option.some.injEq, Prod.mk.injEq] at h2
      obtain ⟨rfl, rfl, rfl⟩ := h2
      have := (filter_length_one_mem (d := 0) hps).2
      exact contains_iff_mem.mp this
    · exact absurd h2 (by simp)
  · obtain ⟨a, _, h1⟩ := findSome?_mem h
    obtain ⟨b, _, h2⟩ := findSome?_mem h1
    obtain ⟨k, _, h3⟩ := findSome?_mem h2
    split at h3
    · next hps =>
      simp only [Option.some.injEq, Prod.mk.injEq] at h3
      obtain ⟨hr2, hc2, rfl⟩ := h3
      have hmem := (filter_length_one_mem (d := (0, 0)) hps).2
      rw [hr2, hc2] at hmem
      exact contains_iff_mem.mp hmem
    · exact absurd h3 (by simp)

theorem findHiddenSingle_ne_nil {g : Grid} {cg : CandGrid} {r c v : Nat}
    (h : findHiddenSingle g cg = some (r, c, v)) : candAt cg r c ≠ [] :=
  List.ne_nil_of_mem (findHiddenSingle_contains h)

/-! ### Progress strictly decreases the candidate measure; termination -/

theorem stepSolve_decrease {st st2 : SolveState} (h : stepSolve st = some st2) :
    totalCands st2.cands < totalCands st.cands := by
  simp only [stepSolve] at h
  split at h
  · next r c v heq =>
    simp only [Option.some.injEq] at h
    subst h
    dsimp only
    have hfact := findNakedSingle_some heq
    have hne : candAt st.cands r c ≠ [] := by
      intro hnil
      have := hfact.2.2.2.1
      rw [hnil] at this
      simp at this
    exact totalCands_applyMove_lt v hne
  · split at h
    · next r c v heq2 =>
      simp only [Option.some.injEq] at h
      subst h
      dsimp only
      exact totalCands_applyMove_lt v (findHiddenSingle_ne_nil heq2)
    · split at h
      · next hp1 =>
        simp only [Option.some.injEq] at h
        subst h
        dsimp only
        exact stepOK_pos_lt (stepOK_pairElims _ _) hp1
      · next hp1 =>
        have hz1 : (findNakedPairEliminations st.cands (gsize st.grid)).2 = 0 := by omega
        have he1 := stepOK_zero_eq (stepOK_pairElims st.cands (gsize st.grid)) hz1
        rw [he1] at h
        split at h
        · next hp2 =>
          simp only [Option.some.injEq] at h
          subst h
          dsimp only
          exact stepOK_pos_lt (stepOK_pointingElims _ _) hp2
        · next hp2 =>
          have hz2 : (findPointingPairEliminations st.cands (gsize st.grid)).2 = 0 := by omega
          have he2 := stepOK_zero_eq (stepOK_pointingElims st.cands (gsize st.grid)) hz2
          rw [he2] at h
          split at h
          · next hp3 =>
            simp only [Option.some.injEq] at h
            subst h
            dsimp only
            exact stepOK_pos_lt (stepOK_boxLineElims _ _) hp3
          · exact absurd h (by simp)

theorem solveLoop_isSome :
    ∀ (fuel : Nat) (st : SolveState) (steps : Nat),
      totalCands st.cands < fuel → (solveLoop fuel st steps).isSome = true := by
  intro fuel
  induction fuel with
  | zero => intro st steps h; omega
  | succ m ih =>
    intro st steps h
    rw [solveLoop]
    cases hs : stepSolve st with
    | none => simp
    | some st2 =>
      dsimp only
      have := stepSolve_decrease hs
      exact ih st2 (steps + 1) (by omega)

theorem solveLoop_some_last :
    ∀ (fuel : Nat) (st : SolveState) (steps : Nat) (out : SolveState × Nat),
      solveLoop fuel st steps = some out → stepSolve out.1 = none := by
  intro fuel
  induction fuel with
  | zero => intro st steps out h; exact absurd h (by simp [solveLoop])
  | succ m ih =>
    intro st steps out h
    rw [solveLoop] at h
    cases hs : stepSolve st with
    | none =>
      rw [hs] at h
      simp only [Option.some.injEq] at h
      rw [← h]
      exact hs
    | some st2 =>
      rw [hs] at h
      exact ih st2 (steps + 1) out h

theorem solveWithStrategies_isSome (g : Grid) : (solveWithStrategies g).isSome = true := by
  unfold solveWithStrategies
  dsimp only
  have h := solveLoop_isSome (totalCands (buildCandidateGrid g) + 1)
    ⟨g, buildCandidateGrid g, [], .beginner⟩ 0 (by dsimp only; omega)
  cases hs : solveLoop (totalCands (buildCandidateGrid g) + 1)
      ⟨g, buildCandidateGrid g, [], .beginner⟩ 0 with
  | none => simp [hs] at h
  | some p => simp [hs]

/-! ### The running maximum difficulty -/

theorem maxDifficulty_absorb {a b : Difficulty}
    (h : getDifficultyIndex b ≤ getDifficultyIndex a) : maxDifficulty a b = a := by
  unfold maxDifficulty
  exact if_pos h

theorem idx_le_maxDifficulty_left (a b : Difficulty) :
    getDifficultyIndex a ≤ getDifficultyIndex (maxDifficulty a b) := by
  unfold maxDifficulty
  split
  · exact Nat.le_refl _
  · omega

theorem idx_le_maxDifficulty_right (a b : Difficulty) :
    getDifficultyIndex b ≤ getDifficultyIndex (maxDifficulty a b) := by
  unfold maxDifficulty
  split
  · assumption
  · exact Nat.le_refl _

theorem idx_le_foldMax (l : List Strategy) (d : Difficulty) :
    getDifficultyIndex d ≤ getDifficultyIndex
      (l.foldl (fun d2 s => maxDifficulty d2 (STRATEGY_DIFFICULTY s)) d) := by
  induction l generalizing d with
  | nil => exact Nat.le_refl _
  | cons x xs ih =>
    exact Nat.le_trans (idx_le_maxDifficulty_left d (STRATEGY_DIFFICULTY x)) (ih _)

theorem mem_le_foldMax {s : Strategy} {l : List Strategy} (d : Difficulty) (h : s ∈ l) :
    getDifficultyIndex (STRATEGY_DIFFICULTY s) ≤ getDifficultyIndex
      (l.foldl (fun d2 s2 => maxDifficulty d2 (STRATEGY_DIFFICULTY s2)) d) := by
  induction l generalizing d with
  | nil => simp at h
  | cons x xs ih =>
    rw [List.foldl_cons]
    rw [List.mem_cons] at h
    rcases h with rfl | h
    · exact Nat.le_trans (idx_le_maxDifficulty_right d (STRATEGY_DIFFICULTY s)) (idx_le_foldMax xs _)
    · exact ih _ h

theorem runningMax_addStrategy (l : List Strategy) (s : Strategy) :
    runningMax (addStrategy l s) = maxDifficulty (runningMax l) (STRATEGY_DIFFICULTY s) := by
  unfold addStrategy
  split
  · next hmem =>
    have h2 : getDifficultyIndex (STRATEGY_DIFFICULTY s) ≤ getDifficultyIndex (runningMax l) := by
      unfold runningMax
      exact mem_le_foldMax _ hmem
    exact (maxDifficulty_absorb h2).symm
  · unfold runningMax
    rw [List.foldl_append]
    rfl

theorem maxDifficulty_expert (a : Difficulty) : maxDifficulty a .expert = .expert := by
  cases a <;> rfl

theorem runningMax_guessing (l : List Strategy) :
    runningMax (addStrategy l .guessing) = .expert := by
  rw [runningMax_addStrategy]
  exact maxDifficulty_expert _

theorem addStrategy_mem (l : List Strategy) (s : Strategy) : s ∈ addStrategy l s := by
  unfold addStrategy
  split
  · assumption
  · simp

theorem stepSolve_runningMax {st st2 : SolveState} (h : stepSolve st = some st2)
    (hinv : st.diff = runningMax st.used) : st2.diff = runningMax st2.used := by
  simp only [stepSolve] at h
  split at h
  · next r c v heq =>
    simp only [Option.some.injEq] at h
    subst h
    dsimp only
    rw [runningMax_addStrategy, ← hinv]
    rfl
  · split at h
    · next r c v heq2 =>
      simp only [Option.some.injEq] at h
      subst h
      dsimp only
      rw [runningMax_addStrategy, ← hinv]
      rfl
    · split at h
      · simp only [Option.some.injEq] at h
        subst h
        dsimp only
        rw [runningMax_addStrategy, ← hinv]
        rfl
      · split at h
        · simp only [Option.some.injEq] at h
          subst h
          dsimp only
          rw [runningMax_addStrategy, ← hinv]
          rfl
        · split at h
          · simp only [Option.some.injEq] at h
            subst h
            dsimp only
            rw [runningMax_addStrategy, ← hinv]
            rfl
          · exact absurd h (by simp)

theorem solveLoop_runningMax :
    ∀ (fuel : Nat) (st : SolveState) (steps : Nat) (out : SolveState × Nat),
      solveLoop fuel st steps = some out → st.diff = runningMax st.used →
      out.1.diff = runningMax out.1.used := by
  intro fuel
  induction fuel with
  | zero => intro st steps out h _; exact absurd h (by simp [solveLoop])
  | succ m ih =>
    intro st steps out h hinv
    rw [solveLoop] at h
    cases hs : stepSolve st with
    | none =>
      rw [hs] at h
      simp only [Option.some.injEq] at h
      rw [← h]
      exact hinv
    | some st2 =>
      rw [hs] at h
      exact ih st2 (steps + 1) out h (stepSolve_runningMax hs hinv)

theorem solveWithStrategies_cases {g : Grid} {res : SolveResult}
    (h : solveWithStrategies g = some res) :
    ∃ st steps, solveLoop (totalCands (buildCandidateGrid g) + 1)
        ⟨g, buildCandidateGrid g, [], .beginner⟩ 0 = some (st, steps) ∧
      res = if isComplete st.grid then
          ⟨true, st.grid, st.used, st.diff, steps⟩
        else
          ⟨false, st.grid, addStrategy st.used .guessing, .expert, steps⟩ := by
  unfold solveWithStrategies at h
  dsimp only at h
  cases hs : solveLoop (totalCands (buildCandidateGrid g) + 1)
      ⟨g, buildCandidateGrid g, [], .beginner⟩ 0 with
  | none => simp [hs] at h
  | some p =>
    obtain ⟨st, steps⟩ := p
    refine ⟨st, steps, rfl, ?_⟩
    simp only [hs, Option.map_some', Option.some.injEq] at h
    exact h.symm

/-! ### A completed grid leaves the solver nothing to do -/

theorem getD_mem {l : List α} {i : Nat} (h : i < l.length) (d : α) : l.getD i d ∈ l := by
  rw [List.getD_eq_getElem?_getD, List.getElem?_eq_getElem h]
  exact List.getElem_mem h

theorem getD_map_range {f : Nat → α} {n i : Nat} (d : α) :
    ((List.range n).map f).getD i d = if i < n then f i else d := by
  by_cases h : i < n
  · rw [List.getD_eq_getElem?_getD, List.getElem?_map, List.getElem?_range h]
    simp [h]
  · rw [getD_default (by simpa using Nat.le_of_not_lt h)]
    simp [h]

theorem isComplete_cellAt {g : Grid} (hsq : squareGrid g) (hc : isComplete g = true)
    {r c : Nat} (hr : r < gsize g) (hcc : c < gsize g) : cellAt g r c ≠ none := by
  unfold isComplete at hc
  rw [List.all_eq_true] at hc
  have hrow : g.getD r [] ∈ g := getD_mem hr []
  have h1 := hc _ hrow
  rw [List.all_eq_true] at h1
  have hlen : (g.getD r []).length = gsize g := hsq _ hrow
  have hcell : (g.getD r []).getD c none ∈ g.getD r [] := getD_mem (by omega) none
  have h2 := h1 _ hcell
  simpa [cellAt] using h2

theorem buildCandidateGrid_complete {g : Grid} (hsq : squareGrid g)
    (hc : isComplete g = true) : ∀ r c, candAt (buildCandidateGrid g) r c = [] := by
  intro r c
  unfold buildCandidateGrid candAt
  rw [getD_map_range]
  by_cases hr : r < gsize g
  · rw [if_pos hr, getD_map_range]
    by_cases hcc : c < gsize g
    · rw [if_pos hcc, if_neg (isComplete_cellAt hsq hc hr hcc)]
    · rw [if_neg hcc]
  · rw [if_neg hr]
    rfl

theorem buildCandidateGrid_complete_eq {g : Grid} (hsq : squareGrid g)
    (hc : isComplete g = true) :
    buildCandidateGrid g = List.replicate (gsize g) (List.replicate (gsize g) []) := by
  unfold buildCandidateGrid
  have h1 : ∀ r ∈ List.range (gsize g),
      ((List.range (gsize g)).map fun c => if cellAt g r c = none then getCandidates g r c
        else []) = List.replicate (gsize g) [] := by
    intro r hrr
    rw [List.mem_range] at hrr
    have h2 : ∀ c ∈ List.range (gsize g),
        (if cellAt g r c = none then getCandidates g r c else []) = ([] : List Nat) := by
      intro c hcc
      rw [List.mem_range] at hcc
      rw [if_neg (isComplete_cellAt hsq hc hrr hcc)]
    rw [List.map_congr_left h2, List.map_const', List.length_range]
  rw [List.map_congr_left h1, List.map_const', List.length_range]

theorem totalCands_complete {g : Grid} (hsq : squareGrid g) (hc : isComplete g = true) :
    totalCands (buildCandidateGrid g) = 0 := by
  rw [buildCandidateGrid_complete_eq hsq hc]
  unfold totalCands
  apply List.sum_eq_zero
  intro x hx
  rw [List.mem_map] at hx
  obtain ⟨row, hrow, rfl⟩ := hx
  rw [List.eq_of_mem_replicate hrow]
  apply List.sum_eq_zero
  intro y hy
  rw [List.mem_map] at hy
  obtain ⟨e, he, rfl⟩ := hy
  rw [List.eq_of_mem_replicate he]
  rfl

theorem findNakedSingle_complete {g : Grid} (hsq : squareGrid g) (hc : isComplete g = true)
    (cg : CandGrid) : findNakedSingle g cg = none := by
  unfold findNakedSingle
  rw [List.findSome?_eq_none_iff]
  intro r hr
  rw [List.findSome?_eq_none_iff]
  intro c hcc
  rw [List.mem_range] at hr hcc
  rw [if_neg]
  intro hcond
  exact isComplete_cellAt hsq hc hr hcc hcond.1

theorem findHiddenSingle_all_nil {g : Grid} {cg : CandGrid}
    (hnil : ∀ r c, candAt cg r c = []) : findHiddenSingle g cg = none := by
  unfold findHiddenSingle
  simp [hnil, List.findSome?_eq_none_iff]

theorem foldl_fixed2 {f1 : β → α → β} {f2 : β → γ → β} {s : β} {l1 : List α} {l2 : List γ}
    (h1 : ∀ a ∈ l1, f1 s a = s) (h2 : ∀ a ∈ l2, f2 s a = s) :
    l2.foldl f2 (l1.foldl f1 s) = s := by
  rw [foldl_fixed h1]
  exact foldl_fixed h2

theorem pairElims_all_nil {cg : CandGrid} {n : Nat} (hnil : ∀ r c, candAt cg r c = []) :
    findNakedPairEliminations cg n = (cg, 0) := by
  unfold findNakedPairEliminations
  apply foldl_fixed
  intro cells _
  unfold findNakedPairInUnit
  dsimp only
  have hpc : (cells.filter fun p => (candAt cg p.1 p.2).length == 2) = [] := by
    apply List.filter_eq_nil_iff.mpr
    intro p _
    rw [hnil]
    simp
  rw [hpc]
  rfl

theorem pointingElims_all_nil {cg : CandGrid} {n : Nat} (hnil : ∀ r c, candAt cg r c = []) :
    findPointingPairEliminations cg n = (cg, 0) := by
  unfold findPointingPairEliminations
  apply foldl_fixed
  intro t _
  simp [hnil]

theorem boxLineElims_all_nil {cg : CandGrid} {n : Nat} (hnil : ∀ r c, candAt cg r c = []) :
    findBoxLineEliminations cg n = (cg, 0) := by
  unfold findBoxLineEliminations
  dsimp only
  exact foldl_fixed2 (fun t _ => by simp [hnil]) (fun t _ => by simp [hnil])

theorem stepSolve_complete {g : Grid} (hsq : squareGrid g) (hc : isComplete g = true) :
    stepSolve ⟨g, buildCandidateGrid g, [], .beginner⟩ = none := by
  have hnil := buildCandidateGrid_complete hsq hc
  simp only [stepSolve]
  rw [findNakedSingle_complete hsq hc, findHiddenSingle_all_nil hnil]
  rw [pairElims_all_nil hnil]
  dsimp only
  rw [pointingElims_all_nil hnil]
  dsimp only
  rw [boxLineElims_all_nil hnil]
  simp

/-! ### The reference model simulates the pure solver -/

theorem stepSolveRef_eq (rs : RefState) :
    stepSolveRef rs = (stepSolve ⟨rs.store.getD rs.wr [], rs.cands, rs.used, rs.diff⟩).map
      fun st => ⟨rs.store.set rs.wr st.grid, rs.wr, st.cands, st.used, st.diff⟩ := by
  simp only [stepSolveRef, stepSolve]
  cases h1 : findNakedSingle (rs.store.getD rs.wr []) rs.cands with
  | some t =>
    obtain ⟨r, c, v⟩ := t
    rfl
  | none =>
    cases h2 : findHiddenSingle (rs.store.getD rs.wr []) rs.cands with
    | some t =>
      obtain ⟨r, c, v⟩ := t
      rfl
    | none =>
      by_cases hc1 : 0 < (findNakedPairEliminations rs.cands (gsize (rs.store.getD rs.wr []))).2
      · simp only [hc1, if_true, Option.map_some']
        rw [set_getD_self]
      · by_cases hc2 : 0 < (findPointingPairEliminations
            (findNakedPairEliminations rs.cands (gsize (rs.store.getD rs.wr []))).1
            (gsize (rs.store.getD rs.wr []))).2
        · simp only [hc1, hc2, if_true, if_false, Option.map_some']
          rw [set_getD_self]
        · by_cases hc3 : 0 < (findBoxLineEliminations (findPointingPairEliminations
              (findNakedPairEliminations rs.cands (gsize (rs.store.getD rs.wr []))).1
              (gsize (rs.store.getD rs.wr []))).1 (gsize (rs.store.getD rs.wr []))).2
          · simp only [hc1, hc2, hc3, if_true, if_false, Option.map_some']
            rw [set_getD_self]
          · simp only [hc1, hc2, hc3, if_false, Option.map_none']

theorem solveLoopRef_eq :
    ∀ (fuel : Nat) (rs : RefState) (steps : Nat), rs.wr < rs.store.length →
      solveLoopRef fuel rs steps =
        (solveLoop fuel ⟨rs.store.getD rs.wr [], rs.cands, rs.used, rs.diff⟩ steps).map
          fun p => (⟨rs.store.set rs.wr p.1.grid, rs.wr, p.1.cands, p.1.used, p.1.diff⟩, p.2) := by
  intro fuel
  induction fuel with
  | zero => intro rs steps hwr; rfl
  | succ m ih =>
    intro rs steps hwr
    rw [solveLoopRef, solveLoop, stepSolveRef_eq rs]
    cases hs : stepSolve ⟨rs.store.getD rs.wr [], rs.cands, rs.used, rs.diff⟩ with
    | none =>
      dsimp only [Option.map_none', Option.map_some']
      rw [set_getD_self]
    | some st2 =>
      dsimp only [Option.map_some']
      rw [ih ⟨rs.store.set rs.wr st2.grid, rs.wr, st2.cands, st2.used, st2.diff⟩ (steps + 1)
        (by simpa using hwr)]
      dsimp only
      rw [getD_set_self (by simpa using hwr)]
      simp only [List.set_set]

theorem stepSolveRef_frame {rs rs2 : RefState} (h : stepSolveRef rs = some rs2) :
    rs2.wr = rs.wr ∧ ∀ i, i ≠ rs.wr → rs2.store.getD i [] = rs.store.getD i [] := by
  simp only [stepSolveRef] at h
  split at h
  · next r c v heq =>
    simp only [Option.some.injEq] at h
    subst h
    exact ⟨rfl, fun i hi => getD_set_ne hi⟩
  · split at h
    · next r c v heq2 =>
      simp only [Option.some.injEq] at h
      subst h
      exact ⟨rfl, fun i hi => getD_set_ne hi⟩
    · split at h
      · simp only [Option.some.injEq] at h
        subst h
        exact ⟨rfl, fun _ _ => rfl⟩
      · split at h
        · simp only [Option.some.injEq] at h
          subst h
          exact ⟨rfl, fun _ _ => rfl⟩
        · split at h
          · simp only [Option.some.injEq] at h
            subst h
            exact ⟨rfl, fun _ _ => rfl⟩
          · exact absurd h (by simp)

theorem solveLoopRef_frame :
    ∀ (fuel : Nat) (rs : RefState) (steps : Nat) (out : RefState × Nat),
      solveLoopRef fuel rs steps = some out →
      out.1.wr = rs.wr ∧ ∀ i, i ≠ rs.wr → out.1.store.getD i [] = rs.store.getD i [] := by
  intro fuel
  induction fuel with
  | zero => intro rs steps out h; exact absurd h (by simp [solveLoopRef])
  | succ m ih =>
    intro rs steps out h
    rw [solveLoopRef] at h
    cases hs : stepSolveRef rs with
    | none =>
      rw [hs] at h
      simp only [Option.some.injEq] at h
      rw [← h]
      exact ⟨rfl, fun _ _ => rfl⟩
    | some rs2 =>
      rw [hs] at h
      obtain ⟨hw1, hf1⟩ := stepSolveRef_frame hs
      obtain ⟨hw2, hf2⟩ := ih rs2 (steps + 1) out h
      refine ⟨hw2.trans hw1, fun i hi => ?_⟩
      rw [hf2 i (by rw [hw1]; exact hi), hf1 i hi]

/-! ### Facts about the hint oracle -/

theorem getCandidates_sorted (g : Grid) (r c : Nat) :
    (getCandidates g r c).Pairwise (· < ·) := by
  unfold getCandidates
  apply List.Pairwise.sublist (List.filter_sublist _)
  exact (List.pairwise_lt_range _).map _ (fun a b hab => by omega)

theorem getCandidates_bounds {g : Grid} {r c v : Nat} (h : v ∈ getCandidates g r c) :
    1 ≤ v ∧ v ≤ gsize g := by
  unfold getCandidates at h
  rw [List.mem_filter] at h
  obtain ⟨h1, _⟩ := h
  rw [List.mem_map] at h1
  obtain ⟨k, hk, rfl⟩ := h1
  rw [List.mem_range] at hk
  omega

theorem useHint_hidden {g : Grid} {r c v : Nat} (hns : hintNakedSingle g = none)
    (ht : (useHint g).target = some (r, c, v)) (htag : (useHint g).tag = .hidden_single) :
    hintHiddenSingle g = some (r, c, v) := by
  unfold useHint at ht htag
  rw [hns] at ht htag
  cases hh : hintHiddenSingle g with
  | some t =>
    rw [hh] at ht
    simpa using ht
  | none =>
    rw [hh] at ht htag
    cases hp : hintNakedPair g with
    | some t =>
      rw [hp] at htag
      simp at htag
    | none =>
      rw [hp] at ht
      simp at ht

theorem rowmajor_lt {n r c r2 c2 : Nat} (hc : c < n) (hc2 : c2 < n) :
    n * r2 + c2 < n * r + c ↔ (r2 < r ∨ (r2 = r ∧ c2 < c)) := by
  constructor
  · intro h
    rcases Nat.lt_trichotomy r2 r with hlt | heq | hgt
    · exact Or.inl hlt
    · exact Or.inr ⟨heq, by subst heq; omega⟩
    · exfalso
      have : n * (r + 1) ≤ n * r2 := Nat.mul_le_mul_left n hgt
      have : n * r + n ≤ n * r2 := by
        rw [Nat.mul_add, Nat.mul_one] at this
        omega
      omega
  · rintro (hlt | ⟨rfl, hlt⟩)
    · have : n * (r2 + 1) ≤ n * r := Nat.mul_le_mul_left n hlt
      rw [Nat.mul_add, Nat.mul_one] at this
      omega
    · omega

theorem hintHiddenSingle_first {g : Grid} {r c v : Nat}
    (h : hintHiddenSingle g = some (r, c, v)) : firstHiddenByCellScan g r c v := by
  unfold hintHiddenSingle at h
  rw [findSome?_range_some] at h
  obtain ⟨rr, hrn, hInner, hRowMin⟩ := h
  rw [findSome?_range_some] at hInner
  obtain ⟨cc, hcn, hCell, hColMin⟩ := hInner
  have hemptyNone : ∀ r2 c2, cellAt g r2 c2 = none →
      (if cellAt g r2 c2 = none then
        ((getCandidates g r2 c2).find? fun w => hiddenQualifies g r2 c2 w).map
          fun w => (r2, c2, w) else none) = none →
      ∀ w ∈ getCandidates g r2 c2, hiddenQualifies g r2 c2 w = false := by
    intro r2 c2 hcell hnone w hw
    rw [if_pos hcell] at hnone
    cases hfind : (getCandidates g r2 c2).find? fun w2 => hiddenQualifies g r2 c2 w2 with
    | some w2 => rw [hfind] at hnone; simp at hnone
    | none =>
      have := List.find?_eq_none.mp hfind w hw
      simpa using this
  split at hCell
  · next hcellEmpty =>
    cases hfind : (getCandidates g rr cc).find? fun w => hiddenQualifies g rr cc w with
    | none => rw [hfind] at hCell; simp at hCell
    | some w =>
      rw [hfind] at hCell
      simp only [Option.map_some', Option.some.injEq, Prod.mk.injEq] at hCell
      obtain ⟨rfl, rfl, rfl⟩ := hCell
      obtain ⟨hq, hmem, hminv⟩ := find?_sorted_min (getCandidates_sorted g rr cc) hfind
      refine ⟨hrn, hcn, hcellEmpty, hmem, hq, ?_, ?_⟩
      · intro w2 hw2 hlt
        exact hminv w2 hw2 hlt
      · intro r2 hr2 c2 hc2 hord hcell2 w2 hw2
        rw [rowmajor_lt hcn hc2] at hord
        rcases hord with hlt | ⟨rfl, hlt⟩
        · have hrowNone := hRowMin r2 hlt
          rw [List.findSome?_eq_none_iff] at hrowNone
          exact hemptyNone r2 c2 hcell2 (hrowNone c2 (List.mem_range.mpr hc2)) w2 hw2
        · exact hemptyNone r2 c2 hcell2 (hColMin c2 hlt) w2 hw2
  · exact absurd hCell (by simp)

theorem hintNakedSingle_none {g : Grid} (h : noNakedSingleCell g) :
    hintNakedSingle g = none := by
  unfold hintNakedSingle
  rw [List.findSome?_eq_none_iff]
  intro r hr
  rw [List.findSome?_eq_none_iff]
  intro c hc
  rw [List.mem_range] at hr hc
  by_cases hcell : cellAt g r c = none
  · rw [if_pos hcell]
    rcases hl : getCandidates g r c with _ | ⟨a, _ | ⟨b, tl⟩⟩
    · rfl
    · exact absurd (by rw [hl]; rfl) (h r hr c hc hcell)
    · rfl
  · rw [if_neg hcell]

theorem filter_length_one_of {p : α → Bool} :
    ∀ {l : List α} {x : α}, x ∈ l → p x = true → l.Nodup →
      (∀ y ∈ l, p y = true → y = x) → (l.filter p).length = 1 := by
  intro l
  induction l with
  | nil => intro x hx _ _ _; simp at hx
  | cons a as ih =>
    intro x hx hpx hnd hothers
    rw [List.nodup_cons] at hnd
    rw [List.mem_cons] at hx
    by_cases hax : a = x
    · subst hax
      rw [List.filter_cons_of_pos hpx]
      have hniltl : as.filter p = [] := by
        apply List.filter_eq_nil_iff.mpr
        intro y hy hpy
        rw [hothers y (List.mem_cons_of_mem a hy) hpy] at hy
        exact hnd.1 hy
      rw [hniltl]
      rfl
    · rcases hx with rfl | hx
      · exact absurd rfl hax
      · have hpa : p a = false := by
          cases hpa : p a
          · rfl
          · exact absurd (hothers a (List.mem_cons_self a as) hpa) hax
        rw [List.filter_cons_of_neg (by simp [hpa])]
        exact ih hx hpx hnd.2 fun y hy hpy => hothers y (List.mem_cons_of_mem a hy) hpy

theorem rowUnit_nodup (n r : Nat) : ((List.range n).map fun c => ((r, c) : Nat × Nat)).Nodup :=
  (List.nodup_range n).map fun c1 c2 hh => by simpa using congrArg Prod.snd hh

theorem colUnit_nodup (n c : Nat) : ((List.range n).map fun r => ((r, c) : Nat × Nat)).Nodup :=
  (List.nodup_range n).map fun r1 r2 hh => by simpa using congrArg Prod.fst hh

theorem getBoxDimensions_pos (n : Nat) :
    0 < (getBoxDimensions n).1 ∧ 0 < (getBoxDimensions n).2 := by
  unfold getBoxDimensions
  split
  · exact ⟨by omega, by omega⟩
  · split
    · exact ⟨by omega, by omega⟩
    · exact ⟨by omega, by omega⟩

theorem hintBoxCells_nodup (n bi bj : Nat) : (hintBoxCells n bi bj).Nodup := by
  unfold hintBoxCells
  rw [List.nodup_flatMap]
  constructor
  · intro i _
    exact (List.nodup_range _).map fun j1 j2 hh => by
      have := congrArg Prod.snd hh
      simp at this
      omega
  · apply List.Pairwise.imp ?_ (List.pairwise_lt_range _)
    intro i1 i2 hlt
    simp only [Function.onFun]
    intro x hx1 hx2
    rw [List.mem_map] at hx1 hx2
    obtain ⟨j1, _, heq1⟩ := hx1
    obtain ⟨j2, _, heq2⟩ := hx2
    have h1 := congrArg Prod.fst heq1
    have h2 := congrArg Prod.fst heq2
    simp at h1 h2
    omega

theorem mem_hintBoxCells {n r c : Nat} (hpos1 : 0 < (getBoxDimensions n).1)
    (hpos2 : 0 < (getBoxDimensions n).2) :
    (r, c) ∈ hintBoxCells n (r / (getBoxDimensions n).1) (c / (getBoxDimensions n).2) := by
  unfold hintBoxCells
  rw [List.mem_flatMap]
  refine ⟨r % (getBoxDimensions n).1, List.mem_range.mpr (Nat.mod_lt r hpos1), ?_⟩
  rw [List.mem_map]
  refine ⟨c % (getBoxDimensions n).2, List.mem_range.mpr (Nat.mod_lt c hpos2), ?_⟩
  rw [Prod.mk.injEq]
  constructor
  · rw [Nat.mul_comm]
    exact Nat.div_add_mod r _
  · rw [Nat.mul_comm]
    exact Nat.div_add_mod c _

theorem boxRowIdx_lt {n r : Nat} (hn : n = 4 ∨ n = 6 ∨ n = 9) (hr : r < n) :
    r / (getBoxDimensions n).1 < n / (getBoxDimensions n).1 := by
  rcases hn with rfl | rfl | rfl <;> simp [getBoxDimensions] <;> omega

theorem boxColIdx_lt {n c : Nat} (hn : n = 4 ∨ n = 6 ∨ n = 9) (hc : c < n) :
    c / (getBoxDimensions n).2 < n / (getBoxDimensions n).2 := by
  rcases hn with rfl | rfl | rfl <;> simp [getBoxDimensions] <;> omega

theorem rowUnit_mem_allUnits {n r : Nat} (hr : r < n) :
    ((List.range n).map fun c => ((r, c) : Nat × Nat)) ∈ allUnits n := by
  unfold allUnits
  rw [List.mem_append]
  left
  rw [List.mem_append]
  left
  exact List.mem_map.mpr ⟨r, List.mem_range.mpr hr, rfl⟩

theorem colUnit_mem_allUnits {n c : Nat} (hc : c < n) :
    ((List.range n).map fun r => ((r, c) : Nat × Nat)) ∈ allUnits n := by
  unfold allUnits
  rw [List.mem_append]
  left
  rw [List.mem_append]
  right
  exact List.mem_map.mpr ⟨c, List.mem_range.mpr hc, rfl⟩

theorem boxUnit_mem_allUnits {n bi bj : Nat} (hbi : bi < n / (getBoxDimensions n).1)
    (hbj : bj < n / (getBoxDimensions n).2) : hintBoxCells n bi bj ∈ allUnits n := by
  unfold allUnits
  rw [List.mem_append]
  right
  rw [List.mem_flatMap]
  exact ⟨bi, List.mem_range.mpr hbi, List.mem_map.mpr ⟨bj, List.mem_range.mpr hbj, rfl⟩⟩

theorem hintHiddenSingle_none {g : Grid} (hn : gsize g = 4 ∨ gsize g = 6 ∨ gsize g = 9)
    (h : noHiddenSingleAnywhere g) : hintHiddenSingle g = none := by
  unfold hintHiddenSingle
  rw [List.findSome?_eq_none_iff]
  intro r hr
  rw [List.findSome?_eq_none_iff]
  intro c hc
  rw [List.mem_range] at hr hc
  by_cases hcell : cellAt g r c = none
  · rw [if_pos hcell]
    cases hfind : (getCandidates g r c).find? fun w => hiddenQualifies g r c w with
    | none => rfl
    | some w =>
      exfalso
      have hq := List.find?_some hfind
      have hmem := List.mem_of_find?_eq_some hfind
      have hwbound := (getCandidates_bounds hmem).2
      unfold hiddenQualifies at hq
      rw [Bool.or_eq_true, Bool.or_eq_true] at hq
      rcases hq with (hq | hq) | hq
      · apply h _ (rowUnit_mem_allUnits hr) w hwbound
        apply filter_length_one_of (x := ((r, c) : Nat × Nat))
        · exact List.mem_map.mpr ⟨c, List.mem_range.mpr hc, rfl⟩
        · exact decide_eq_true ⟨hcell, hmem⟩
        · exact rowUnit_nodup _ _
        · intro y hy hpy
          rw [List.mem_map] at hy
          obtain ⟨c2, hc2, rfl⟩ := hy
          have hhc : cellHasCandidate g r c2 w := of_decide_eq_true hpy
          unfold uniqueInRow at hq
          rw [List.all_eq_true] at hq
          have h3 := hq c2 hc2
          simp only [Bool.or_eq_true, beq_iff_eq, bne_iff_ne, ne_eq,
            Bool.not_eq_true'] at h3
          rcases h3 with (rfl | hne) | hnc
          · rfl
          · exact absurd hhc.1 hne
          · rw [contains_iff_mem.mpr hhc.2] at hnc
            exact absurd hnc (by simp)
      · apply h _ (colUnit_mem_allUnits hc) w hwbound
        apply filter_length_one_of (x := ((r, c) : Nat × Nat))
        · exact List.mem_map.mpr ⟨r, List.mem_range.mpr hr, rfl⟩
        · exact decide_eq_true ⟨hcell, hmem⟩
        · exact colUnit_nodup _ _
        · intro y hy hpy
          rw [List.mem_map] at hy
          obtain ⟨r2, hr2, rfl⟩ := hy
          have hhc : cellHasCandidate g r2 c w := of_decide_eq_true hpy
          unfold uniqueInCol at hq
          rw [List.all_eq_true] at hq
          have h3 := hq r2 hr2
          simp only [Bool.or_eq_true, beq_iff_eq, bne_iff_ne, ne_eq,
            Bool.not_eq_true'] at h3
          rcases h3 with (rfl | hne) | hnc
          · rfl
          · exact absurd hhc.1 hne
          · rw [contains_iff_mem.mpr hhc.2] at hnc
            exact absurd hnc (by simp)
      · apply h _ (boxUnit_mem_allUnits (boxRowIdx_lt hn hr) (boxColIdx_lt hn hc)) w hwbound
        apply filter_length_one_of (x := ((r, c) : Nat × Nat))
        · exact mem_hintBoxCells (getBoxDimensions_pos _).1 (getBoxDimensions_pos _).2
        · exact decide_eq_true ⟨hcell, hmem⟩
        · exact hintBoxCells_nodup _ _ _
        · intro y hy hpy
          unfold hintBoxCells at hy
          rw [List.mem_flatMap] at hy
          obtain ⟨i, hi, hy2⟩ := hy
          rw [List.mem_map] at hy2
          obtain ⟨j, hj, rfl⟩ := hy2
          rw [List.mem_range] at hi hj
          have hhc : cellHasCandidate g (r / (getBoxDimensions (gsize g)).1 *
              (getBoxDimensions (gsize g)).1 + i) (c / (getBoxDimensions (gsize g)).2 *
              (getBoxDimensions (gsize g)).2 + j) w := of_decide_eq_true hpy
          unfold uniqueInBox at hq
          rw [List.all_eq_true] at hq
          have h2 := hq i (List.mem_range.mpr hi)
          rw [List.all_eq_true] at h2
          have h3 := h2 j (List.mem_range.mpr hj)
          simp only [Bool.or_eq_true, Bool.and_eq_true, beq_iff_eq, bne_iff_ne, ne_eq,
            Bool.not_eq_true'] at h3
          rcases h3 with (⟨he1, he2⟩ | hne) | hnc
          · rw [Prod.mk.injEq]
            exact ⟨he1, he2⟩
          · exact absurd hhc.1 hne
          · rw [contains_iff_mem.mpr hhc.2] at hnc
            exact absurd hnc (by simp)
  · rw [if_neg hcell]

theorem ordPairs_mem : ∀ {l : List α} {pq : α × α}, pq ∈ ordPairs l →
    pq.1 ∈ l ∧ pq.2 ∈ l := by
  intro l
  induction l with
  | nil => intro pq h; simp [ordPairs] at h
  | cons x xs ih =>
    intro pq h
    unfold ordPairs at h
    rw [List.mem_append] at h
    rcases h with h | h
    · rw [List.mem_map] at h
      obtain ⟨y, hy, rfl⟩ := h
      exact ⟨List.mem_cons_self x xs, List.mem_cons_of_mem x hy⟩
    · obtain ⟨h1, h2⟩ := ih h
      exact ⟨List.mem_cons_of_mem x h1, List.mem_cons_of_mem x h2⟩

theorem ordPairs_ne : ∀ {l : List α}, l.Nodup → ∀ {pq : α × α}, pq ∈ ordPairs l →
    pq.1 ≠ pq.2 := by
  intro l
  induction l with
  | nil => intro _ pq h; simp [ordPairs] at h
  | cons x xs ih =>
    intro hnd pq h
    rw [List.nodup_cons] at hnd
    unfold ordPairs at h
    rw [List.mem_append] at h
    rcases h with h | h
    · rw [List.mem_map] at h
      obtain ⟨y, hy, rfl⟩ := h
      intro he
      dsimp only at he
      rw [he] at hnd
      exact hnd.1 hy
    · exact ih hnd.2 h

theorem two_lists_eq {l1 l2 : List Nat} (h1 : l1.length = 2) (h2 : l2.length = 2)
    (ha : l1.getD 0 0 = l2.getD 0 0) (hb : l1.getD 1 0 = l2.getD 1 0) : l1 = l2 := by
  obtain ⟨a, b, rfl⟩ := List.length_eq_two.mp h1
  obtain ⟨a2, b2, rfl⟩ := List.length_eq_two.mp h2
  rw [show a = a2 from ha, show b = b2 from hb]

theorem not_contains_decide (l : List Nat) (x : Nat) : (!l.contains x) = decide (x ∉ l) := by
  by_cases hx : x ∈ l
  · simp [hx]
  · simp [hx]

theorem pairLeadingToSingle_none {g : Grid} {U : List (Nat × Nat)} (hUnd : U.Nodup)
    (hU : U ∈ allUnits (gsize g)) (h : noPairToSingle g) :
    pairLeadingToSingle g U = none := by
  unfold pairLeadingToSingle
  rw [List.findSome?_eq_none_iff]
  intro pq hpq
  obtain ⟨e1, e2⟩ := pq
  have hesnd : ((U.filter fun p => cellAt g p.1 p.2 == none).map fun p =>
      (p, getCandidates g p.1 p.2)).Nodup :=
    (hUnd.filter _).map fun p1 p2 hh => congrArg Prod.fst hh
  obtain ⟨hpq1, hpq2⟩ := ordPairs_mem hpq
  have hne := ordPairs_ne (hesnd.filter _) hpq
  obtain ⟨hpq1e, hlen1⟩ := List.mem_filter.mp hpq1
  obtain ⟨hpq2e, hlen2⟩ := List.mem_filter.mp hpq2
  obtain ⟨p1, hp1f, hp1eq⟩ := List.mem_map.mp hpq1e
  obtain ⟨p2, hp2f, hp2eq⟩ := List.mem_map.mp hpq2e
  subst hp1eq
  subst hp2eq
  obtain ⟨hp1U, hp1c⟩ := List.mem_filter.mp hp1f
  obtain ⟨hp2U, hp2c⟩ := List.mem_filter.mp hp2f
  have hp1empty : cellAt g p1.1 p1.2 = none := by simpa using hp1c
  have hp2empty : cellAt g p2.1 p2.2 = none := by simpa using hp2c
  have hp12 : p1 ≠ p2 := by
    intro he
    exact hne (by rw [he])
  have hlen1n : (getCandidates g p1.1 p1.2).length = 2 := by simpa using hlen1
  have hlen2n : (getCandidates g p2.1 p2.2).length = 2 := by simpa using hlen2
  dsimp only
  split
  · next hcond =>
    rw [Bool.and_eq_true, beq_iff_eq, beq_iff_eq] at hcond
    have hcandEq : getCandidates g p1.1 p1.2 = getCandidates g p2.1 p2.2 :=
      two_lists_eq hlen1n hlen2n hcond.1 hcond.2
    rw [List.findSome?_eq_none_iff]
    intro o ho
    obtain ⟨x, hxf, hxeq⟩ := List.mem_map.mp ho
    subst hxeq
    obtain ⟨hxU, hxc⟩ := List.mem_filter.mp hxf
    have hxempty : cellAt g x.1 x.2 = none := by simpa using hxc
    dsimp only
    split
    · rfl
    · next hskip =>
      have hx1 : x ≠ p1 := fun he => hskip (by rw [he]; simp)
      have hx2 : x ≠ p2 := fun he => hskip (by rw [he]; simp)
      have hpv : [(getCandidates g p1.1 p1.2).getD 0 0,
          (getCandidates g p2.1 p2.2).getD 1 0] = getCandidates g p1.1 p1.2 := by
        obtain ⟨a, b, hab⟩ := List.length_eq_two.mp hlen1n
        rw [← hcandEq, hab]
        rfl
      rw [hpv]
      rw [List.filter_congr fun y _ => not_contains_decide (getCandidates g p1.1 p1.2) y]
      have hlenne := h U hU p1 hp1U p2 hp2U hp12 hp1empty hp2empty hlen1n hcandEq
        x hxU hx1 hx2 hxempty
      rcases hflt : (getCandidates g x.1 x.2).filter
          (fun w => decide (w ∉ getCandidates g p1.1 p1.2)) with _ | ⟨a, _ | ⟨b, tl⟩⟩
      · rfl
      · exact absurd (by rw [hflt]; rfl) hlenne
      · rfl
  · rfl

theorem hintNakedPair_none {g : Grid} (h : noPairToSingle g) : hintNakedPair g = none := by
  simp only [hintNakedPair]
  have hrows : ((List.range (gsize g)).findSome? fun r =>
      pairLeadingToSingle g ((List.range (gsize g)).map fun c => (r, c))) = none := by
    rw [List.findSome?_eq_none_iff]
    intro r hr
    exact pairLeadingToSingle_none (rowUnit_nodup _ _)
      (rowUnit_mem_allUnits (List.mem_range.mp hr)) h
  have hcols : ((List.range (gsize g)).findSome? fun c =>
      pairLeadingToSingle g ((List.range (gsize g)).map fun r => (r, c))) = none := by
    rw [List.findSome?_eq_none_iff]
    intro c hc
    exact pairLeadingToSingle_none (colUnit_nodup _ _)
      (colUnit_mem_allUnits (List.mem_range.mp hc)) h
  have hboxes : ((List.range (gsize g / (getBoxDimensions (gsize g)).1)).findSome? fun bi =>
      (List.range (gsize g / (getBoxDimensions (gsize g)).2)).findSome? fun bj =>
        pairLeadingToSingle g (hintBoxCells (gsize g) bi bj)) = none := by
    rw [List.findSome?_eq_none_iff]
    intro bi hbi
    rw [List.findSome?_eq_none_iff]
    intro bj hbj
    exact pairLeadingToSingle_none (hintBoxCells_nodup _ _ _)
      (boxUnit_mem_allUnits (List.mem_range.mp hbi) (List.mem_range.mp hbj)) h
  rw [hrows, hcols, hboxes]
  rfl

theorem cappedDifficulty_index (d : Difficulty) (n : Nat) :
    getDifficultyIndex (cappedDifficulty d n) =
      min (getDifficultyIndex d) (getDifficultyIndex (getMaxDifficultyForGridSize n)) := by
  unfold cappedDifficulty
  split
  · next hle => omega
  · next hgt => omega

theorem solveWithStrategiesRef_result (store : List Grid) (ref : Nat) :
    (solveWithStrategiesRef store ref).2.2 = solveWithStrategies (store.getD ref []) := by
  simp only [solveWithStrategiesRef, solveWithStrategies]
  rw [solveLoopRef_eq _ _ _ (by simp)]
  rw [getD_concat_self]
  cases hs : solveLoop (totalCands (buildCandidateGrid (store.getD ref [])) + 1)
      ⟨store.getD ref [], buildCandidateGrid (store.getD ref []), [], .beginner⟩ 0 with
  | none => simp
  | some p =>
    simp only [Option.map_some']
    rw [getD_set_self (by simp)]

theorem solveWithStrategiesRef_frame (store : List Grid) (ref : Nat) :
    (solveWithStrategiesRef store ref).2.1 = store.length ∧
    ∀ i, i < store.length →
      (solveWithStrategiesRef store ref).1.getD i [] = store.getD i [] := by
  simp only [solveWithStrategiesRef]
  cases hs : solveLoopRef (totalCands (buildCandidateGrid (store.getD ref [])) + 1)
      ⟨store ++ [store.getD ref []], store.length, buildCandidateGrid (store.getD ref []),
        [], .beginner⟩ 0 with
  | none => exact ⟨rfl, fun i hi => getD_append_left hi⟩
  | some out =>
    obtain ⟨rs, steps⟩ := out
    obtain ⟨hw, hf⟩ := solveLoopRef_frame _ _ _ _ hs
    refine ⟨hw, fun i hi => ?_⟩
    have hi2 : i ≠ store.length := by omega
    exact (hf i hi2).trans (getD_append_left hi)

/-! ### The claims -/

/-- Claim C1: for every input grid, `solveWithStrategies` records each applied
technique in `strategiesUsed` and returns `maxDifficulty` equal to the running
maximum of the fixed `STRATEGY_DIFFICULTY` table over the recorded techniques
(`beginner` when none applies); and whenever the final working grid is not
completely filled, it returns `solved = false` with `guessing` added to
`strategiesUsed` and `maxDifficulty = expert`. -/
theorem claim1_difficulty_bookkeeping :
    ∀ (g : Grid) (res : SolveResult), solveWithStrategies g = some res →
      res.maxDifficulty = runningMax res.strategiesUsed ∧
      (isComplete res.grid = false →
        res.solved = false ∧ Strategy.guessing ∈ res.strategiesUsed ∧
        res.maxDifficulty = .expert) := by
  intro g res h
  obtain ⟨st, steps, hloop, hres⟩ := solveWithStrategies_cases h
  have hinv := solveLoop_runningMax _ _ _ _ hloop rfl
  by_cases hcomp : isComplete st.grid = true
  · rw [if_pos hcomp] at hres
    subst hres
    dsimp only
    refine ⟨hinv, fun hfalse => ?_⟩
    rw [hcomp] at hfalse
    cases hfalse
  · rw [if_neg hcomp] at hres
    subst hres
    dsimp only
    exact ⟨(runningMax_guessing _).symm, fun _ => ⟨rfl, addStrategy_mem _ _, rfl⟩⟩

theorem claim1_witness :
    solveWithStrategies scenarioGrid =
      some ⟨true, scenarioSolved, [Strategy.naked_single], .beginner, 2⟩ ∧
    (⟨true, scenarioSolved, [Strategy.naked_single], Difficulty.beginner, 2⟩ :
      SolveResult).maxDifficulty =
      runningMax (⟨true, scenarioSolved, [Strategy.naked_single], Difficulty.beginner, 2⟩ :
        SolveResult).strategiesUsed :=
  ⟨by decide, (claim1_difficulty_bookkeeping scenarioGrid _ (by decide)).1⟩

/-- Claim C2: in every iteration of the solver's loop the five techniques are
attempted in the fixed priority order (naked single, hidden single, naked
pair, pointing pair, box/line reduction); a lower-priority technique runs only
when every higher one finds nothing, progress restarts the loop from the top
(the next iteration re-enters `stepSolve`, which begins with the naked
single), and the loop stops exactly when no technique advances. -/
theorem claim2_priority_order :
    (∀ st : SolveState,
      stepSolve st = none ↔
        findNakedSingle st.grid st.cands = none ∧
        findHiddenSingle st.grid st.cands = none ∧
        (findNakedPairEliminations st.cands (gsize st.grid)).2 = 0 ∧
        (findPointingPairEliminations st.cands (gsize st.grid)).2 = 0 ∧
        (findBoxLineEliminations st.cands (gsize st.grid)).2 = 0) ∧
    (∀ st st2 : SolveState, stepSolve st = some st2 →
      (∃ r c v, findNakedSingle st.grid st.cands = some (r, c, v) ∧
        st2 = ⟨(applyMove st.grid st.cands r c v).1, (applyMove st.grid st.cands r c v).2,
          addStrategy st.used .naked_single, maxDifficulty st.diff .beginner⟩) ∨
      (findNakedSingle st.grid st.cands = none ∧
        ∃ r c v, findHiddenSingle st.grid st.cands = some (r, c, v) ∧
        st2 = ⟨(applyMove st.grid st.cands r c v).1, (applyMove st.grid st.cands r c v).2,
          addStrategy st.used .hidden_single, maxDifficulty st.diff .easy⟩) ∨
      (findNakedSingle st.grid st.cands = none ∧
        findHiddenSingle st.grid st.cands = none ∧
        0 < (findNakedPairEliminations st.cands (gsize st.grid)).2 ∧
        st2 = ⟨st.grid, (findNakedPairEliminations st.cands (gsize st.grid)).1,
          addStrategy st.used .naked_pair, maxDifficulty st.diff .medium⟩) ∨
      (findNakedSingle st.grid st.cands = none ∧
        findHiddenSingle st.grid st.cands = none ∧
        (findNakedPairEliminations st.cands (gsize st.grid)).2 = 0 ∧
        0 < (findPointingPairEliminations st.cands (gsize st.grid)).2 ∧
        st2 = ⟨st.grid, (findPointingPairEliminations st.cands (gsize st.grid)).1,
          addStrategy st.used .pointing_pair, maxDifficulty st.diff .hard⟩) ∨
      (findNakedSingle st.grid st.cands = none ∧
        findHiddenSingle st.grid st.cands = none ∧
        (findNakedPairEliminations st.cands (gsize st.grid)).2 = 0 ∧
        (findPointingPairEliminations st.cands (gsize st.grid)).2 = 0 ∧
        0 < (findBoxLineEliminations st.cands (gsize st.grid)).2 ∧
        st2 = ⟨st.grid, (findBoxLineEliminations st.cands (gsize st.grid)).1,
          addStrategy st.used .box_line_reduction, maxDifficulty st.diff .hard⟩)) ∧
    (∀ (fuel : Nat) (st : SolveState) (steps : Nat) (st2 : SolveState),
      stepSolve st = some st2 →
      solveLoop (fuel + 1) st steps = solveLoop fuel st2 (steps + 1)) ∧
    (∀ (fuel : Nat) (st : SolveState) (steps : Nat) (out : SolveState × Nat),
      solveLoop fuel st steps = some out → stepSolve out.1 = none) := by
  refine ⟨fun st => ⟨?_, ?_⟩, fun st st2 h => ?_, fun fuel st steps st2 h => ?_,
    solveLoop_some_last⟩
  · intro h
    simp only [stepSolve] at h
    cases hns : findNakedSingle st.grid st.cands with
    | some t =>
      obtain ⟨r, c, v⟩ := t
      simp only [hns] at h
      exact absurd h (by simp)
    | none =>
    simp only [hns] at h
    cases hhs : findHiddenSingle st.grid st.cands with
    | some t =>
      obtain ⟨r, c, v⟩ := t
      simp only [hhs] at h
      exact absurd h (by simp)
    | none =>
    simp only [hhs] at h
    by_cases hp1 : 0 < (findNakedPairEliminations st.cands (gsize st.grid)).2
    · rw [if_pos hp1] at h
      exact absurd h (by simp)
    · rw [if_neg hp1] at h
      have hz1 : (findNakedPairEliminations st.cands (gsize st.grid)).2 = 0 := by omega
      rw [stepOK_zero_eq (stepOK_pairElims st.cands (gsize st.grid)) hz1] at h
      by_cases hp2 : 0 < (findPointingPairEliminations st.cands (gsize st.grid)).2
      · rw [if_pos hp2] at h
        exact absurd h (by simp)
      · rw [if_neg hp2] at h
        have hz2 : (findPointingPairEliminations st.cands (gsize st.grid)).2 = 0 := by omega
        rw [stepOK_zero_eq (stepOK_pointingElims st.cands (gsize st.grid)) hz2] at h
        by_cases hp3 : 0 < (findBoxLineEliminations st.cands (gsize st.grid)).2
        · rw [if_pos hp3] at h
          exact absurd h (by simp)
        · exact ⟨rfl, rfl, hz1, hz2, by omega⟩
  · rintro ⟨h1, h2, h3, h4, h5⟩
    simp only [stepSolve]
    rw [h1, h2]
    rw [if_neg (by omega)]
    rw [stepOK_zero_eq (stepOK_pairElims st.cands (gsize st.grid)) h3]
    rw [if_neg (by omega)]
    rw [stepOK_zero_eq (stepOK_pointingElims st.cands (gsize st.grid)) h4]
    rw [if_neg (by omega)]
  · simp only [stepSolve] at h
    cases hns : findNakedSingle st.grid st.cands with
    | some t =>
      obtain ⟨r, c, v⟩ := t
      simp only [hns, Option.some.injEq] at h
      exact Or.inl ⟨r, c, v, rfl, h.symm⟩
    | none =>
    simp only [hns] at h
    cases hhs : findHiddenSingle st.grid st.cands with
    | some t =>
      obtain ⟨r, c, v⟩ := t
      simp only [hhs, Option.some.injEq] at h
      exact Or.inr (Or.inl ⟨rfl, r, c, v, rfl, h.symm⟩)
    | none =>
    simp only [hhs] at h
    by_cases hp1 : 0 < (findNakedPairEliminations st.cands (gsize st.grid)).2
    · rw [if_pos hp1] at h
      simp only [Option.some.injEq] at h
      exact Or.inr (Or.inr (Or.inl ⟨rfl, rfl, hp1, h.symm⟩))
    · rw [if_neg hp1] at h
      have hz1 : (findNakedPairEliminations st.cands (gsize st.grid)).2 = 0 := by omega
      rw [stepOK_zero_eq (stepOK_pairElims st.cands (gsize st.grid)) hz1] at h
      by_cases hp2 : 0 < (findPointingPairEliminations st.cands (gsize st.grid)).2
      · rw [if_pos hp2] at h
        simp only [Option.some.injEq] at h
        exact Or.inr (Or.inr (Or.inr (Or.inl ⟨rfl, rfl, hz1, hp2, h.symm⟩)))
      · rw [if_neg hp2] at h
        have hz2 : (findPointingPairEliminations st.cands (gsize st.grid)).2 = 0 := by omega
        rw [stepOK_zero_eq (stepOK_pointingElims st.cands (gsize st.grid)) hz2] at h
        by_cases hp3 : 0 < (findBoxLineEliminations st.cands (gsize st.grid)).2
        · rw [if_pos hp3] at h
          simp only [Option.some.injEq] at h
          exact Or.inr (Or.inr (Or.inr (Or.inr ⟨rfl, rfl, hz1, hz2, hp3, h.symm⟩)))
        · rw [if_neg hp3] at h
          exact absurd h (by simp)
  · rw [solveLoop, h]

theorem claim2_witness :
    stepSolve ⟨scenarioSolved, buildCandidateGrid scenarioSolved, [], .beginner⟩ = none :=
  (claim2_priority_order.1 ⟨scenarioSolved, buildCandidateGrid scenarioSolved, [],
    .beginner⟩).mpr (by decide)

/-- Claim C3: for every grid of size 4, 6 or 9 and every requested difficulty,
`validateDifficulty` accepts exactly when the solver's actual difficulty is
within one level of the requested difficulty capped at the per-size ceiling,
or exceeds the capped request while the uncapped request is hard or expert. -/
theorem claim3_validate_iff :
    ∀ (g : Grid) (d : Difficulty) (out : ValidateResult),
      gsize g = 4 ∨ gsize g = 6 ∨ gsize g = 9 →
      validateDifficulty g d = some out →
      (out.valid = true ↔
        (((getDifficultyIndex out.actualDifficulty : Int) -
            (getDifficultyIndex (cappedDifficulty d (gsize g)) : Int)).natAbs ≤ 1 ∨
         (getDifficultyIndex (cappedDifficulty d (gsize g)) <
            getDifficultyIndex out.actualDifficulty ∧ (d = .hard ∨ d = .expert)))) := by
  intro g d out _hn h
  unfold validateDifficulty at h
  cases hs : solveWithStrategies g with
  | none => rw [hs] at h; simp at h
  | some res =>
    rw [hs] at h
    simp only [Option.map_some', Option.some.injEq] at h
    subst h
    dsimp only
    rw [decide_eq_true_iff, cappedDifficulty_index]
    have hd : 3 ≤ getDifficultyIndex d ↔ (d = .hard ∨ d = .expert) := by
      cases d <;> simp [getDifficultyIndex]
    constructor
    · rintro (h1 | ⟨h2, h3⟩)
      · exact Or.inl h1
      · exact Or.inr ⟨h2, hd.mp h3⟩
    · rintro (h1 | ⟨h2, h3⟩)
      · exact Or.inl h1
      · exact Or.inr ⟨h2, hd.mpr h3⟩

theorem claim3_witness :
    ((⟨true, Difficulty.beginner, [Strategy.naked_single]⟩ : ValidateResult).valid = true ↔
      (((getDifficultyIndex Difficulty.beginner : Int) -
          (getDifficultyIndex (cappedDifficulty Difficulty.easy (gsize scenarioGrid)) :
            Int)).natAbs ≤ 1 ∨
       (getDifficultyIndex (cappedDifficulty Difficulty.easy (gsize scenarioGrid)) <
          getDifficultyIndex Difficulty.beginner ∧
        (Difficulty.easy = Difficulty.hard ∨ Difficulty.easy = Difficulty.expert)))) :=
  claim3_validate_iff scenarioGrid Difficulty.easy _ (Or.inl rfl) (by decide)

theorem claim4_counterexample :
    hintNakedSingle hintScanGrid = none ∧
    (useHint hintScanGrid).target = some (1, 2, 2) ∧
    (useHint hintScanGrid).tag = HintTag.hidden_single ∧
    specHiddenSingleUnitScan hintScanGrid = some (1, 3, 4) ∧
    ((1, 2, 2) : Nat × Nat × Nat) ≠ (1, 3, 4) := by
  refine ⟨by decide, by decide, by decide, by decide, by decide⟩

/-- Claim C4 (amended): for every in-progress grid with no naked single on
which the hint oracle reports a hidden single, the reported target is the
first hidden single met by scanning empty cells in row-major order, taking
each cell's candidates in ascending order and accepting the first value
unique within the cell's row, column or box — the scan is cell-by-cell (a
hidden single at an earlier cell is reported before any hidden single at a
later cell, whichever unit type witnesses it), not whole rows, then whole
columns, then whole boxes. -/
theorem claim4_hint_cell_scan :
    ∀ (g : Grid) (r c v : Nat), hintNakedSingle g = none →
      (useHint g).target = some (r, c, v) → (useHint g).tag = HintTag.hidden_single →
      firstHiddenByCellScan g r c v :=
  fun _ _ _ _ hns ht htag => hintHiddenSingle_first (useHint_hidden hns ht htag)

theorem claim4_witness :
    hintNakedSingle hintScanGrid = none ∧
    (useHint hintScanGrid).target = some (1, 2, 2) ∧
    (useHint hintScanGrid).tag = HintTag.hidden_single ∧
    firstHiddenByCellScan hintScanGrid 1 2 2 :=
  ⟨by decide, by decide, by decide,
    claim4_hint_cell_scan hintScanGrid 1 2 2 (by decide) (by decide) (by decide)⟩

/-- Claim C5: for every in-progress grid (of size 4, 6 or 9) in which no
empty cell has exactly one candidate, no value is confined to a single cell
within any row, column or box, and no naked pair's elimination leaves some
other cell of the same unit with exactly one remaining candidate, the hint
oracle produces no target cell, tag `advanced`, and confidence 0. -/
theorem claim5_hint_no_target :
    ∀ g : Grid, (gsize g = 4 ∨ gsize g = 6 ∨ gsize g = 9) →
      noNakedSingleCell g → noHiddenSingleAnywhere g → noPairToSingle g →
      useHint g = ⟨none, .advanced, 0⟩ := by
  intro g hn h1 h2 h3
  unfold useHint
  rw [hintNakedSingle_none h1, hintHiddenSingle_none hn h2, hintNakedPair_none h3]

theorem claim5_witness :
    (gsize emptyGrid4 = 4 ∨ gsize emptyGrid4 = 6 ∨ gsize emptyGrid4 = 9) ∧
    noNakedSingleCell emptyGrid4 ∧ noHiddenSingleAnywhere emptyGrid4 ∧
    noPairToSingle emptyGrid4 ∧
    useHint emptyGrid4 = ⟨none, .advanced, 0⟩ :=
  ⟨Or.inl rfl, by decide, by decide, by decide,
    claim5_hint_no_target emptyGrid4 (Or.inl rfl) (by decide) (by decide) (by decide)⟩

/-- Claim C6: for every completely filled (square) grid,
`solveWithStrategies` returns `solved = true`, the unchanged grid, an empty
strategies-used set, one step, and `maxDifficulty = beginner`. -/
theorem claim6_solved_grid_noop :
    ∀ g : Grid, squareGrid g → isComplete g = true →
      solveWithStrategies g = some ⟨true, g, [], .beginner, 1⟩ := by
  intro g hsq hc
  unfold solveWithStrategies
  dsimp only
  rw [totalCands_complete hsq hc]
  rw [show (0 + 1 : Nat) = 1 from rfl]
  rw [show solveLoop 1 ⟨g, buildCandidateGrid g, [], .beginner⟩ 0 =
    match stepSolve ⟨g, buildCandidateGrid g, [], .beginner⟩ with
    | none => some (⟨g, buildCandidateGrid g, [], .beginner⟩, 0 + 1)
    | some st2 => solveLoop 0 st2 (0 + 1) from rfl]
  rw [stepSolve_complete hsq hc]
  simp [hc]

theorem claim6_witness :
    squareGrid scenarioSolved ∧ isComplete scenarioSolved = true ∧
    solveWithStrategies scenarioSolved = some ⟨true, scenarioSolved, [], .beginner, 1⟩ :=
  ⟨by decide, by decide, claim6_solved_grid_noop scenarioSolved (by decide) (by decide)⟩

/-- Claim C7: on the 4×4 scenario grid `[[1,2,3,·],[3,4,1,2],[2,1,4,3],[4,3,2,1]]`,
the solver fills (0,3) with 4 via a naked single and returns `solved = true`,
`strategiesUsed = {naked_single}`, `maxDifficulty = beginner`. -/
theorem claim7_scenario_grid :
    solveWithStrategies scenarioGrid =
      some ⟨true, scenarioSolved, [Strategy.naked_single], .beginner, 2⟩ ∧
    findNakedSingle scenarioGrid (buildCandidateGrid scenarioGrid) = some (0, 3, 4) := by
  refine ⟨by decide, by decide⟩

/-- Claim C8: the solver is pure and deterministic — in the reference model,
two calls on stores holding equal input grids return equal results in every
field, and the result coincides with the pure function of the input grid
value alone, independent of any other state. -/
theorem claim8_pure_deterministic :
    ∀ (s1 : List Grid) (r1 : Nat) (s2 : List Grid) (r2 : Nat),
      s1.getD r1 [] = s2.getD r2 [] →
      (solveWithStrategiesRef s1 r1).2.2 = (solveWithStrategiesRef s2 r2).2.2 ∧
      (solveWithStrategiesRef s1 r1).2.2 = solveWithStrategies (s1.getD r1 []) := by
  intro s1 r1 s2 r2 he
  refine ⟨?_, solveWithStrategiesRef_result s1 r1⟩
  rw [solveWithStrategiesRef_result, solveWithStrategiesRef_result, he]

theorem claim8_witness :
    demoStore.getD 0 [] = [scenarioGrid].getD 0 [] ∧
    (solveWithStrategiesRef demoStore 0).2.2 = (solveWithStrategiesRef [scenarioGrid] 0).2.2 ∧
    (solveWithStrategiesRef demoStore 0).2.2 = solveWithStrategies (demoStore.getD 0 []) :=
  ⟨rfl, (claim8_pure_deterministic demoStore 0 [scenarioGrid] 0 rfl).1,
    (claim8_pure_deterministic demoStore 0 [scenarioGrid] 0 rfl).2⟩

/-- Claim C9: the solver terminates on every finite input grid — every loop
iteration that makes progress strictly decreases the total number of cached
candidate entries (this also covers iterations that fill a cell, whose
candidate set is emptied), the loop exits exactly at the first iteration
that makes no progress, and `solveWithStrategies` returns a result for every
grid with the fuel it chooses. -/
theorem claim9_termination :
    (∀ st st2 : SolveState, stepSolve st = some st2 →
      totalCands st2.cands < totalCands st.cands) ∧
    (∀ (fuel : Nat) (st : SolveState) (steps : Nat) (out : SolveState × Nat),
      solveLoop fuel st steps = some out → stepSolve out.1 = none) ∧
    (∀ g : Grid, (solveWithStrategies g).isSome = true) :=
  ⟨fun _ _ => stepSolve_decrease, solveLoop_some_last, solveWithStrategies_isSome⟩

theorem claim9_witness :
    solveLoop 1 ⟨scenarioSolved, buildCandidateGrid scenarioSolved, [], .beginner⟩ 0 =
      some (⟨scenarioSolved, buildCandidateGrid scenarioSolved, [], .beginner⟩, 1) ∧
    stepSolve ⟨scenarioSolved, buildCandidateGrid scenarioSolved, [], .beginner⟩ = none :=
  ⟨by decide, claim9_termination.2.1 1
    ⟨scenarioSolved, buildCandidateGrid scenarioSolved, [], .beginner⟩ 0
    (⟨scenarioSolved, buildCandidateGrid scenarioSolved, [], .beginner⟩, 1) (by decide)⟩

/-- Claim C10: the solver never mutates the grid passed to it — in the
reference model the working copy is allocated at a fresh store index, all
placements go to that index, so after the call the caller's input grid is
cell-for-cell unchanged (as is every other pre-existing grid in the store),
and the returned working grid lives at an index distinct from the input's. -/
theorem claim10_no_input_mutation :
    ∀ (store : List Grid) (ref : Nat), ref < store.length →
      (solveWithStrategiesRef store ref).1.getD ref [] = store.getD ref [] ∧
      (solveWithStrategiesRef store ref).2.1 ≠ ref ∧
      (∀ i, i < store.length →
        (solveWithStrategiesRef store ref).1.getD i [] = store.getD i []) := by
  intro store ref href
  obtain ⟨hw, hf⟩ := solveWithStrategiesRef_frame store ref
  refine ⟨hf ref href, ?_, hf⟩
  rw [hw]
  omega

theorem claim10_witness :
    0 < demoStore.length ∧
    (solveWithStrategiesRef demoStore 0).1.getD 0 [] = demoStore.getD 0 [] ∧
    (solveWithStrategiesRef demoStore 0).2.1 ≠ 0 :=
  ⟨by decide, (claim10_no_input_mutation demoStore 0 (by decide)).1,
    (claim10_no_input_mutation demoStore 0 (by decide)).2.1⟩
